import Mathlib

set_option maxRecDepth 8000

/-!
Shallow embedding of the clast-rs FastCDC chunking engine
(src/fastcdc/cut.rs, core.rs, stream.rs, mask.rs, build.rs).

Machine integers: Rust u64 arithmetic is modelled on Nat with explicit
reduction modulo 2^64 at every wrapping operation.  Byte buffers are
List Nat.  The build-time gear table (emitted by build.rs from a
ChaCha20 PRNG seeded with GEAR_SEED) is not reproducible here, so every
definition is parametric in gear : Nat → Nat, the GEAR table viewed as a
function from byte values; GEAR_LS is its left-shifted companion,
computed exactly as build.rs emits it (val << 1 on u64).
-/

def U64 : Nat := 2 ^ 64

/-- GEAR_LS table entry: build.rs (line 68) writes val << 1 for each gear
entry, truncated to u64. -/
def gearLS (gear : Nat → Nat) (b : Nat) : Nat := gear b * 2 % U64

/-- Chunker configuration: the three sizes plus the four cached masks
(FastCDC struct in core.rs together with Masks in mask.rs).  The masks are
kept abstract because MASK_TABLE is a build-time artifact. -/
structure Config where
  min_size : Nat
  avg_size : Nat
  max_size : Nat
  mask_s : Nat
  mask_s_ls : Nat
  mask_l : Nat
  mask_l_ls : Nat
deriving DecidableEq, Repr

/-- The validation performed by FastCDC::try_new (core.rs lines 86-121). -/
def Config.Valid (c : Config) : Prop :=
  64 ≤ c.min_size ∧ c.min_size ≤ 1048576 ∧
  256 ≤ c.avg_size ∧ c.avg_size ≤ 4194304 ∧
  1024 ≤ c.max_size ∧ c.max_size ≤ 16777216 ∧
  c.min_size < c.avg_size ∧ c.avg_size < c.max_size

instance (c : Config) : Decidable c.Valid := by
  unfold Config.Valid; infer_instance

/-- One scan loop of find_cutpoint_inner (cut.rs lines 57-75 for the
small-mask region, lines 81-99 for the large-mask region; the two loops are
textually identical up to the mask pair, so they share this definition).
Iterates n byte pairs starting at pair index p with rolling hash h, using
the mask pair (mls, m).  Sum.inl (hash, cut) is an early return on a fired
mask check; Sum.inr h is loop exit (count exhausted, or the in-loop bounds
break at byte_idx + 1 >= source.len()). -/
def scanRegion (gear : Nat → Nat) (source : List Nat) (mls m : Nat) :
    Nat → Nat → Nat → Sum (Nat × Nat) Nat
  | 0, _, h => Sum.inr h
  | n + 1, p, h =>
    let b := p * 2
    if source.length ≤ b + 1 then Sum.inr h
    else
      let h1 := (h * 4 + gearLS gear (source.getD b 0)) % U64
      if h1 &&& mls = 0 then Sum.inl (h1, b)
      else
        let h2 := (h1 + gear (source.getD (b + 1) 0)) % U64
        if h2 &&& m = 0 then Sum.inl (h2, b + 1)
        else scanRegion gear source mls m n (p + 1) h2

/-- find_cutpoint_inner (cut.rs lines 28-102): the incremental cut-point
search.  The size and mask parameters are bundled in cfg.  The first loop
runs over pair indices [start_idx, center_idx) with the strict masks; it is
guarded by start_idx < center_idx as in the source; afterwards
start_idx = start_idx.max(center_idx) and the second loop runs to end_idx
with the loose masks. -/
def find_cutpoint_inner (gear : Nat → Nat) (source : List Nat)
    (offset prev_hash : Nat) (cfg : Config) : Nat × Nat :=
  let scan_len := Nat.min source.length cfg.max_size
  if scan_len ≤ cfg.min_size then (prev_hash, scan_len)
  else
    let start_idx := if offset < cfg.min_size then cfg.min_size / 2 else offset / 2 * 2 / 2
    let fp0 := if offset < cfg.min_size then 0 else prev_hash
    let center_idx := Nat.min cfg.avg_size scan_len / 2
    let end_idx := scan_len / 2
    match (if start_idx < center_idx then
             scanRegion gear source cfg.mask_s_ls cfg.mask_s (center_idx - start_idx) start_idx fp0
           else Sum.inr fp0) with
    | Sum.inl r => r
    | Sum.inr h1 =>
      let start2 := Nat.max start_idx center_idx
      match scanRegion gear source cfg.mask_l_ls cfg.mask_l (end_idx - start2) start2 h1 with
      | Sum.inl r => r
      | Sum.inr h2 => (h2, scan_len)

/-- Modelled from the spec: the non-incremental entry point find_cutpoint is
re-exported by src/fastcdc/mod.rs and called by FastCDCIter::next (core.rs
line 193), but its definition is not among the files under src/.  Spec
section 4.3 gives its contract and algorithm, which coincide with
find_cutpoint_inner resumed from offset 0 with zero carried hash: a
sub-minimum window returns (0, scan_len) and the scan otherwise starts at
pair index min_size / 2 with hash 0. -/
def find_cutpoint (gear : Nat → Nat) (source : List Nat) (cfg : Config) : Nat × Nat :=
  find_cutpoint_inner gear source 0 0 cfg

/-- One standard gear-hash step h ← (h << 1) + GEAR[b] on u64 (spec
glossary; the unrolled inner loop performs two of these per iteration). -/
def gearStep (gear : Nat → Nat) (h b : Nat) : Nat := (h * 2 + gear b) % U64

/-- First half of the two-byte unrolled update (cut.rs lines 64 and 88):
h ← (h << 2) + GEAR_LS[b0], wrapping on u64. -/
def unrolledFirst (gear : Nat → Nat) (h b0 : Nat) : Nat :=
  (h * 4 + gearLS gear b0) % U64

/-- Second half of the two-byte unrolled update (cut.rs lines 70 and 94):
h ← h + GEAR[b1], wrapping on u64. -/
def unrolledSecond (gear : Nat → Nat) (h1 b1 : Nat) : Nat :=
  (h1 + gear b1) % U64

/-- Masks::new (mask.rs lines 41 and 44) computes each left-shifted mask as
mask << 1 on u64. -/
def maskLS (m : Nat) : Nat := m * 2 % U64

/-- Bounds-checked twin of scanRegion for the safety claim: every source
access goes through getElem? on the scan window (the first scan_len bytes of
the source); an access outside the window aborts with none.  srcLen is the
length of the full source slice, used by the in-loop bounds break exactly as
in scanRegion. -/
def scanRegionChecked (gear : Nat → Nat) (window : List Nat) (srcLen : Nat) (mls m : Nat) :
    Nat → Nat → Nat → Option (Sum (Nat × Nat) Nat)
  | 0, _, h => some (Sum.inr h)
  | n + 1, p, h =>
    let b := p * 2
    if srcLen ≤ b + 1 then some (Sum.inr h)
    else
      match window[b]? with
      | none => none
      | some x0 =>
        let h1 := (h * 4 + gearLS gear x0) % U64
        if h1 &&& mls = 0 then some (Sum.inl (h1, b))
        else
          match window[b + 1]? with
          | none => none
          | some x1 =>
            let h2 := (h1 + gear x1) % U64
            if h2 &&& m = 0 then some (Sum.inl (h2, b + 1))
            else scanRegionChecked gear window srcLen mls m n (p + 1) h2

/-- Bounds-checked twin of find_cutpoint_inner: identical control flow, but
all byte reads go through the checked scan over the window of the first
scan_len bytes.  Returning some means no access ever left the window. -/
def find_cutpoint_innerChecked (gear : Nat → Nat) (source : List Nat)
    (offset prev_hash : Nat) (cfg : Config) : Option (Nat × Nat) :=
  let scan_len := Nat.min source.length cfg.max_size
  let window := source.take scan_len
  if scan_len ≤ cfg.min_size then some (prev_hash, scan_len)
  else
    let start_idx := if offset < cfg.min_size then cfg.min_size / 2 else offset / 2 * 2 / 2
    let fp0 := if offset < cfg.min_size then 0 else prev_hash
    let center_idx := Nat.min cfg.avg_size scan_len / 2
    let end_idx := scan_len / 2
    match (if start_idx < center_idx then
             scanRegionChecked gear window source.length cfg.mask_s_ls cfg.mask_s
               (center_idx - start_idx) start_idx fp0
           else some (Sum.inr fp0)) with
    | none => none
    | some (Sum.inl r) => some r
    | some (Sum.inr h1) =>
      let start2 := Nat.max start_idx center_idx
      match scanRegionChecked gear window source.length cfg.mask_l_ls cfg.mask_l
          (end_idx - start2) start2 h1 with
      | none => none
      | some (Sum.inl r) => some r
      | some (Sum.inr h2) => some (h2, scan_len)

/-- Proof-internal recombination of the two scan loops: a single loop over
pair indices where the mask pair is chosen by comparing the pair index with
center_idx (below it: strict masks; at or above: loose masks).  Used to
split and re-associate scans in the incremental-equivalence proofs. -/
def scanMixed (gear : Nat → Nat) (source : List Nat) (msls ms mlls ml center : Nat) :
    Nat → Nat → Nat → Sum (Nat × Nat) Nat
  | 0, _, h => Sum.inr h
  | n + 1, p, h =>
    let b := p * 2
    if source.length ≤ b + 1 then Sum.inr h
    else
      let mls := if p < center then msls else mlls
      let m := if p < center then ms else ml
      let h1 := (h * 4 + gearLS gear (source.getD b 0)) % U64
      if h1 &&& mls = 0 then Sum.inl (h1, b)
      else
        let h2 := (h1 + gear (source.getD (b + 1) 0)) % U64
        if h2 &&& m = 0 then Sum.inl (h2, b + 1)
        else scanMixed gear source msls ms mlls ml center n (p + 1) h2

/-- The chunk record (chunk.rs). -/
structure Chunk where
  fp_hash : Nat
  data : List Nat
  offset : Nat
  length : Nat
deriving DecidableEq, Repr

/-- Reference chunking of a fully buffered input: repeatedly scan the window
of at most max_size bytes with find_cutpoint and split at the returned cut,
as FastCDCIter::next does per step (core.rs lines 192-213).  Fuelled
structural recursion: every emitted chunk consumes at least one byte under a
valid configuration, so fuel equal to the input length suffices. -/
def chunkAllGo (gear : Nat → Nat) (cfg : Config) : Nat → List Nat → Nat → List Chunk
  | 0, _, _ => []
  | _ + 1, [], _ => []
  | fuel + 1, x :: rest, processed =>
    let buf := x :: rest
    let scan_len := Nat.min buf.length cfg.max_size
    let r := find_cutpoint gear (buf.take scan_len) cfg
    ⟨r.1, buf.take r.2, processed, r.2⟩ ::
      chunkAllGo gear cfg fuel (buf.drop r.2) (processed + r.2)

def chunkAll (gear : Nat → Nat) (cfg : Config) (S : List Nat) : List Chunk :=
  chunkAllGo gear cfg S.length S 0

/-- offset_0 = base and offset_i + length_i = offset_{i+1} along the list. -/
def chainedFrom (base : Nat) : List Chunk → Prop
  | [] => True
  | c :: rest => c.offset = base ∧ chainedFrom (base + c.length) rest

/-- Behaviour of one blocking read call: deliver k asks the reader to hand
over at most k of its remaining bytes (further capped by the buffer space the
driver offers and by the bytes it still has — a Read implementation may
always return fewer bytes than requested); failRead makes the call fail. -/
inductive ReadStep where
  | deliver (k : Nat)
  | failRead
deriving DecidableEq, Repr

/-- A blocking byte source: the bytes it will deliver, and a script of
per-call behaviours.  An exhausted script delivers greedily.  Reading from an
empty pending list delivers 0 bytes, which the Read contract defines as EOF. -/
structure Reader where
  pending : List Nat
  script : List ReadStep
deriving DecidableEq, Repr

def stepOk : ReadStep → Bool
  | ReadStep.deliver k => decide (1 ≤ k)
  | ReadStep.failRead => false

/-- An error-free source: every scripted call delivers at least one byte
(while bytes remain) and none fails. -/
def ErrorFree (scr : List ReadStep) : Prop := scr.all stepOk = true

instance (scr : List ReadStep) : Decidable (ErrorFree scr) := by
  unfold ErrorFree; infer_instance

/-- The refill loop of FastCDCIter::next (core.rs lines 166-186): read until
the buffer holds max_size bytes, EOF, or a read error.  The Rust body resizes
buf to max_size, reads into the tail, and truncates back to the delivered
length, which appends exactly the delivered bytes; one read delivers at most
needed = max_size - buf.len() bytes.  Ok(0) sets eof and breaks; Err returns
with the buffer truncated back (delivered bytes of earlier iterations kept)
and does not set eof.  The Bool result is false when a read error surfaced.
Fuelled: each non-final iteration consumes a script entry or delivers at
least one byte, so refillFuel below suffices. -/
def refill (cfg : Config) : Nat → List Nat → Bool → Reader → Bool × List Nat × Bool × Reader
  | 0, buf, eof, rdr => (true, buf, eof, rdr)
  | fuel + 1, buf, eof, rdr =>
    if eof = false ∧ buf.length < cfg.max_size then
      let needed := cfg.max_size - buf.length
      match rdr.script with
      | ReadStep.failRead :: rest => (false, buf, eof, ⟨rdr.pending, rest⟩)
      | ReadStep.deliver k :: rest =>
        let m := Nat.min (Nat.min k needed) rdr.pending.length
        if m = 0 then (true, buf, true, ⟨rdr.pending, rest⟩)
        else refill cfg fuel (buf ++ rdr.pending.take m) eof ⟨rdr.pending.drop m, rest⟩
      | [] =>
        let m := Nat.min needed rdr.pending.length
        if m = 0 then (true, buf, true, rdr)
        else refill cfg fuel (buf ++ rdr.pending.take m) eof ⟨rdr.pending.drop m, []⟩
    else (true, buf, eof, rdr)

def refillFuel (cfg : Config) (rdr : Reader) : Nat :=
  rdr.script.length + cfg.max_size + 1

/-- State of the blocking iterator (FastCDCIter, core.rs lines 150-156),
reader kept separately. -/
structure IterState where
  buf : List Nat
  processed : Nat
  eof : Bool
deriving DecidableEq, Repr

/-- FastCDCIter::next (core.rs lines 161-216). -/
def iterNext (gear : Nat → Nat) (cfg : Config) (s : IterState) (rdr : Reader) :
    Option (Except Unit Chunk) × IterState × Reader :=
  if s.eof = true ∧ s.buf = [] then (none, s, rdr)
  else
    match refill cfg (refillFuel cfg rdr) s.buf s.eof rdr with
    | (false, buf1, eof1, rdr1) => (some (Except.error ()), ⟨buf1, s.processed, eof1⟩, rdr1)
    | (true, buf1, eof1, rdr1) =>
      if buf1 = [] then (none, ⟨buf1, s.processed, eof1⟩, rdr1)
      else
        let scan_len := Nat.min buf1.length cfg.max_size
        let r := find_cutpoint gear (buf1.take scan_len) cfg
        (some (Except.ok ⟨r.1, buf1.take r.2, s.processed, r.2⟩),
          ⟨buf1.drop r.2, s.processed + r.2, eof1⟩, rdr1)

/-- Drive the blocking iterator until it yields none (or fuel runs out). -/
def iterRun (gear : Nat → Nat) (cfg : Config) :
    Nat → IterState → Reader → List (Except Unit Chunk)
  | 0, _, _ => []
  | fuel + 1, s, rdr =>
    match iterNext gear cfg s rdr with
    | (none, _, _) => []
    | (some item, s1, rdr1) => item :: iterRun gear cfg fuel s1 rdr1

/-- The full element sequence produced by chunker.chunks(reader) over input S
with read behaviour scr.  The fuel dominates the number of iterator steps:
each step consumes at least one pending byte, one script entry, or flips eof. -/
def iterEmit (gear : Nat → Nat) (cfg : Config) (S : List Nat) (scr : List ReadStep) :
    List (Except Unit Chunk) :=
  iterRun gear cfg (3 * S.length + 3 * scr.length + 2) ⟨[], 0, false⟩ ⟨S, scr⟩

/-- Behaviour of one poll_read call of the async byte source: deliver k fills
at most k bytes, notReady returns Poll::Pending, failRead fails the read. -/
inductive AsyncStep where
  | deliver (k : Nat)
  | failRead
  | notReady
deriving DecidableEq, Repr

def astepOk : AsyncStep → Bool
  | AsyncStep.deliver k => decide (1 ≤ k)
  | AsyncStep.failRead => false
  | AsyncStep.notReady => true

/-- An error-free async source: scripted reads may be pending but never fail,
and a completed read delivers at least one byte while bytes remain. -/
def AErrorFree (scr : List AsyncStep) : Prop := scr.all astepOk = true

instance (scr : List AsyncStep) : Decidable (AErrorFree scr) := by
  unfold AErrorFree; infer_instance

/-- State of the cooperative stream (FastCDCStream, stream.rs lines 51-62),
with the async source folded in. -/
structure StreamState where
  buf : List Nat
  processed : Nat
  eof : Bool
  scanned : Nat
  fp_hash : Nat
  pending : List Nat
  script : List AsyncStep
deriving DecidableEq, Repr

inductive PollRes where
  | yielded (c : Chunk)
  | erred
  | ended
  | notReady
  | again
deriving DecidableEq, Repr

/-- One iteration of the loop inside FastCDCStream::poll_next (stream.rs
lines 94-167).  again means the loop continues with the updated state;
notReady is Poll::Pending (the caller will poll again); yielded/erred are
Poll::Ready items and ended is Poll::Ready(None).  The async read models the
ReadBuf over the spare capacity: the buffer is created with capacity
max_size and reserve never asks beyond max_size - buf.len(), so the spare
capacity presented to the reader is max_size - buf.len(). -/
def pollBody (gear : Nat → Nat) (cfg : Config) (st : StreamState) : PollRes × StreamState :=
  if st.eof = true ∧ st.buf = [] then (PollRes.ended, st)
  else
    match (if cfg.min_size ≤ st.buf.length ∨ (st.eof = true ∧ st.buf ≠ []) then
            let scan_len := Nat.min st.buf.length cfg.max_size
            let r := find_cutpoint_inner gear (st.buf.take scan_len) st.scanned st.fp_hash cfg
            let cutOpt : Option Nat :=
              if r.2 < scan_len then some r.2
              else if cfg.max_size ≤ st.buf.length then some cfg.max_size
              else if st.eof = true then some scan_len
              else none
            match cutOpt with
            | some cp =>
              Sum.inl ((⟨r.1, st.buf.take cp, st.processed, cp⟩ : Chunk),
                { st with buf := st.buf.drop cp, processed := st.processed + cp,
                          scanned := 0, fp_hash := 0 })
            | none =>
              Sum.inr { st with scanned := Nat.max (scan_len / 2 * 2) cfg.min_size,
                                fp_hash := r.1 }
          else Sum.inr st) with
    | Sum.inl (c, st1) => (PollRes.yielded c, st1)
    | Sum.inr st1 =>
      if st1.buf.length < cfg.max_size ∧ st1.eof = false then
        let spare := cfg.max_size - st1.buf.length
        match st1.script with
        | AsyncStep.failRead :: rest => (PollRes.erred, { st1 with script := rest })
        | AsyncStep.notReady :: rest => (PollRes.notReady, { st1 with script := rest })
        | AsyncStep.deliver k :: rest =>
          let m := Nat.min (Nat.min k spare) st1.pending.length
          if m = 0 then (PollRes.again, { st1 with eof := true, script := rest })
          else
            (PollRes.again,
              { st1 with
                  buf := st1.buf ++ st1.pending.take m
                  pending := st1.pending.drop m
                  script := rest })
        | [] =>
          let m := Nat.min spare st1.pending.length
          if m = 0 then (PollRes.again, { st1 with eof := true })
          else
            (PollRes.again,
              { st1 with
                  buf := st1.buf ++ st1.pending.take m
                  pending := st1.pending.drop m })
      else (PollRes.notReady, st1)

/-- Drive the stream to completion: collect Ready items across polls,
re-polling through Pending, until Ready(None) (or fuel runs out). -/
def streamRun (gear : Nat → Nat) (cfg : Config) : Nat → StreamState → List (Except Unit Chunk)
  | 0, _ => []
  | fuel + 1, st =>
    match pollBody gear cfg st with
    | (PollRes.ended, _) => []
    | (PollRes.yielded c, st1) => Except.ok c :: streamRun gear cfg fuel st1
    | (PollRes.erred, st1) => Except.error () :: streamRun gear cfg fuel st1
    | (PollRes.notReady, st1) => streamRun gear cfg fuel st1
    | (PollRes.again, st1) => streamRun gear cfg fuel st1

def streamInitState (S : List Nat) (scr : List AsyncStep) : StreamState :=
  ⟨[], 0, false, 0, 0, S, scr⟩

/-- The full element sequence produced by chunker.as_stream(reader) over
input S with read behaviour scr, across sufficiently many polls. -/
def streamEmit (gear : Nat → Nat) (cfg : Config) (S : List Nat) (scr : List AsyncStep) :
    List (Except Unit Chunk) :=
  streamRun gear cfg (3 * S.length + 3 * scr.length + 2) (streamInitState S scr)

deriving instance DecidableEq for Except

/-! Concrete instances used by witnesses and counterexamples.  The gear
table is a build-time artifact of the repository (build.rs), so concrete
statements instantiate the parametric embedding at explicit tables. -/

/-- A gear table assigning 0 to every byte value. -/
def gearZero : Nat → Nat := fun _ => 0

/-- A gear table assigning 2^63 (only the top bit set) to every byte value. -/
def gearTop : Nat → Nat := fun _ => 2 ^ 63

/-- A small injective-ish gear table for witnesses. -/
def gearW : Nat → Nat := fun b => (b + 1) * 2654435761 % U64

/-- A valid configuration (passes FastCDC::try_new) with even min_size. -/
def cfgW : Config := ⟨64, 256, 1024, 1, 2, 4, 8⟩

/-- A valid configuration with odd min_size 65. -/
def cfgOdd : Config := ⟨65, 256, 1024, 1, 2, 4, 8⟩

/-- 66 identical bytes: two bytes beyond cfgOdd.min_size. -/
def sOdd : List Nat := List.replicate 66 3

/-! Scan-loop lemmas. -/

theorem getD_take (l : List Nat) (L b d : Nat) (hb : b < L) :
    (l.take L).getD b d = l.getD b d := by
  simp [List.getD_eq_getElem?_getD, List.getElem?_take, hb]

theorem scanRegion_succ (gear : Nat → Nat) (src : List Nat) (mls m n p h : Nat) :
    scanRegion gear src mls m (n + 1) p h =
      (if src.length ≤ p * 2 + 1 then Sum.inr h
       else if ((h * 4 + gearLS gear (src.getD (p * 2) 0)) % U64) &&& mls = 0 then
         Sum.inl ((h * 4 + gearLS gear (src.getD (p * 2) 0)) % U64, p * 2)
       else if (((h * 4 + gearLS gear (src.getD (p * 2) 0)) % U64 +
           gear (src.getD (p * 2 + 1) 0)) % U64) &&& m = 0 then
         Sum.inl ((((h * 4 + gearLS gear (src.getD (p * 2) 0)) % U64 +
           gear (src.getD (p * 2 + 1) 0)) % U64), p * 2 + 1)
       else scanRegion gear src mls m n (p + 1)
         (((h * 4 + gearLS gear (src.getD (p * 2) 0)) % U64 +
           gear (src.getD (p * 2 + 1) 0)) % U64)) := rfl

theorem scanMixed_succ (gear : Nat → Nat) (src : List Nat)
    (msls ms mlls ml center n p h : Nat) :
    scanMixed gear src msls ms mlls ml center (n + 1) p h =
      (if src.length ≤ p * 2 + 1 then Sum.inr h
       else if ((h * 4 + gearLS gear (src.getD (p * 2) 0)) % U64) &&&
           (if p < center then msls else mlls) = 0 then
         Sum.inl ((h * 4 + gearLS gear (src.getD (p * 2) 0)) % U64, p * 2)
       else if (((h * 4 + gearLS gear (src.getD (p * 2) 0)) % U64 +
           gear (src.getD (p * 2 + 1) 0)) % U64) &&& (if p < center then ms else ml) = 0 then
         Sum.inl ((((h * 4 + gearLS gear (src.getD (p * 2) 0)) % U64 +
           gear (src.getD (p * 2 + 1) 0)) % U64), p * 2 + 1)
       else scanMixed gear src msls ms mlls ml center n (p + 1)
         (((h * 4 + gearLS gear (src.getD (p * 2) 0)) % U64 +
           gear (src.getD (p * 2 + 1) 0)) % U64)) := rfl

theorem scanRegion_break (gear : Nat → Nat) (src : List Nat) (mls m : Nat)
    (n p h : Nat) (hb : src.length ≤ p * 2 + 1) :
    scanRegion gear src mls m n p h = Sum.inr h := by
  cases n with
  | zero => rfl
  | succ k => rw [scanRegion_succ, if_pos hb]

theorem scanMixed_break (gear : Nat → Nat) (src : List Nat)
    (msls ms mlls ml center : Nat) (n p h : Nat) (hb : src.length ≤ p * 2 + 1) :
    scanMixed gear src msls ms mlls ml center n p h = Sum.inr h := by
  cases n with
  | zero => rfl
  | succ k => rw [scanMixed_succ, if_pos hb]

theorem scanRegion_split (gear : Nat → Nat) (src : List Nat) (mls m : Nat)
    (n1 n2 p h : Nat) :
    scanRegion gear src mls m (n1 + n2) p h =
      (match scanRegion gear src mls m n1 p h with
       | Sum.inl r => Sum.inl r
       | Sum.inr h1 => scanRegion gear src mls m n2 (p + n1) h1) := by
  induction n1 generalizing p h with
  | zero => simp [scanRegion]
  | succ k ih =>
    have e : k + 1 + n2 = (k + n2) + 1 := by omega
    rw [e, scanRegion_succ, scanRegion_succ]
    by_cases hb : src.length ≤ p * 2 + 1
    · rw [if_pos hb, if_pos hb]
      exact (scanRegion_break gear src mls m n2 (p + (k + 1)) h (by omega)).symm
    · rw [if_neg hb, if_neg hb]
      by_cases h1 : ((h * 4 + gearLS gear (src.getD (p * 2) 0)) % U64) &&& mls = 0
      · rw [if_pos h1, if_pos h1]
      · rw [if_neg h1, if_neg h1]
        by_cases h2 : (((h * 4 + gearLS gear (src.getD (p * 2) 0)) % U64 +
            gear (src.getD (p * 2 + 1) 0)) % U64) &&& m = 0
        · rw [if_pos h2, if_pos h2]
        · rw [if_neg h2, if_neg h2, ih]
          have e2 : p + (k + 1) = (p + 1) + k := by omega
          rw [e2]

theorem scanMixed_split (gear : Nat → Nat) (src : List Nat)
    (msls ms mlls ml center : Nat) (n1 n2 p h : Nat) :
    scanMixed gear src msls ms mlls ml center (n1 + n2) p h =
      (match scanMixed gear src msls ms mlls ml center n1 p h with
       | Sum.inl r => Sum.inl r
       | Sum.inr h1 => scanMixed gear src msls ms mlls ml center n2 (p + n1) h1) := by
  induction n1 generalizing p h with
  | zero => simp [scanMixed]
  | succ k ih =>
    have e : k + 1 + n2 = (k + n2) + 1 := by omega
    rw [e, scanMixed_succ, scanMixed_succ]
    by_cases hb : src.length ≤ p * 2 + 1
    · rw [if_pos hb, if_pos hb]
      exact (scanMixed_break gear src msls ms mlls ml center n2 (p + (k + 1)) h (by omega)).symm
    · rw [if_neg hb, if_neg hb]
      by_cases h1 : ((h * 4 + gearLS gear (src.getD (p * 2) 0)) % U64) &&&
          (if p < center then msls else mlls) = 0
      · rw [if_pos h1, if_pos h1]
      · rw [if_neg h1, if_neg h1]
        by_cases h2 : (((h * 4 + gearLS gear (src.getD (p * 2) 0)) % U64 +
            gear (src.getD (p * 2 + 1) 0)) % U64) &&& (if p < center then ms else ml) = 0
        · rw [if_pos h2, if_pos h2]
        · rw [if_neg h2, if_neg h2, ih]
          have e2 : p + (k + 1) = (p + 1) + k := by omega
          rw [e2]

theorem scanMixed_eq_small (gear : Nat → Nat) (src : List Nat)
    (msls ms mlls ml center : Nat) (n p h : Nat) (hn : p + n ≤ center) :
    scanMixed gear src msls ms mlls ml center n p h = scanRegion gear src msls ms n p h := by
  induction n generalizing p h with
  | zero => rfl
  | succ k ih =>
    have hp : p < center := by omega
    rw [scanMixed_succ, scanRegion_succ, if_pos hp, if_pos hp]
    by_cases hb : src.length ≤ p * 2 + 1
    · rw [if_pos hb, if_pos hb]
    · rw [if_neg hb, if_neg hb]
      by_cases h1 : ((h * 4 + gearLS gear (src.getD (p * 2) 0)) % U64) &&& msls = 0
      · rw [if_pos h1, if_pos h1]
      · rw [if_neg h1, if_neg h1]
        by_cases h2 : (((h * 4 + gearLS gear (src.getD (p * 2) 0)) % U64 +
            gear (src.getD (p * 2 + 1) 0)) % U64) &&& ms = 0
        · rw [if_pos h2, if_pos h2]
        · rw [if_neg h2, if_neg h2]
          apply ih
          omega

theorem scanMixed_eq_large (gear : Nat → Nat) (src : List Nat)
    (msls ms mlls ml center : Nat) (n p h : Nat) (hp0 : center ≤ p) :
    scanMixed gear src msls ms mlls ml center n p h = scanRegion gear src mlls ml n p h := by
  induction n generalizing p h with
  | zero => rfl
  | succ k ih =>
    have hp : ¬ p < center := by omega
    rw [scanMixed_succ, scanRegion_succ, if_neg hp, if_neg hp]
    by_cases hb : src.length ≤ p * 2 + 1
    · rw [if_pos hb, if_pos hb]
    · rw [if_neg hb, if_neg hb]
      by_cases h1 : ((h * 4 + gearLS gear (src.getD (p * 2) 0)) % U64) &&& mlls = 0
      · rw [if_pos h1, if_pos h1]
      · rw [if_neg h1, if_neg h1]
        by_cases h2 : (((h * 4 + gearLS gear (src.getD (p * 2) 0)) % U64 +
            gear (src.getD (p * 2 + 1) 0)) % U64) &&& ml = 0
        · rw [if_pos h2, if_pos h2]
        · rw [if_neg h2, if_neg h2]
          apply ih
          omega

theorem scanMixed_congr_center (gear : Nat → Nat) (src : List Nat)
    (msls ms mlls ml c1 c2 : Nat) (n p h : Nat) (h1 : p + n ≤ c1) (h2 : p + n ≤ c2) :
    scanMixed gear src msls ms mlls ml c1 n p h =
      scanMixed gear src msls ms mlls ml c2 n p h := by
  rw [scanMixed_eq_small gear src msls ms mlls ml c1 n p h h1,
    scanMixed_eq_small gear src msls ms mlls ml c2 n p h h2]

theorem scanMixed_congr_src (gear : Nat → Nat) (src1 src2 : List Nat)
    (msls ms mlls ml center : Nat) (n p h : Nat)
    (hl1 : 2 * (p + n) ≤ src1.length) (hl2 : 2 * (p + n) ≤ src2.length)
    (hagree : ∀ b, b < 2 * (p + n) → src1.getD b 0 = src2.getD b 0) :
    scanMixed gear src1 msls ms mlls ml center n p h =
      scanMixed gear src2 msls ms mlls ml center n p h := by
  induction n generalizing p h with
  | zero => rfl
  | succ k ih =>
    have hb1 : ¬ src1.length ≤ p * 2 + 1 := by omega
    have hb2 : ¬ src2.length ≤ p * 2 + 1 := by omega
    have ha0 : src1.getD (p * 2) 0 = src2.getD (p * 2) 0 := hagree _ (by omega)
    have ha1 : src1.getD (p * 2 + 1) 0 = src2.getD (p * 2 + 1) 0 := hagree _ (by omega)
    rw [scanMixed_succ, scanMixed_succ, if_neg hb1, if_neg hb2, ha0, ha1]
    by_cases hc1 : ((h * 4 + gearLS gear (src2.getD (p * 2) 0)) % U64) &&&
        (if p < center then msls else mlls) = 0
    · rw [if_pos hc1, if_pos hc1]
    · rw [if_neg hc1, if_neg hc1]
      by_cases hc2 : (((h * 4 + gearLS gear (src2.getD (p * 2) 0)) % U64 +
          gear (src2.getD (p * 2 + 1) 0)) % U64) &&& (if p < center then ms else ml) = 0
      · rw [if_pos hc2, if_pos hc2]
      · rw [if_neg hc2, if_neg hc2]
        apply ih
        · omega
        · omega
        · exact fun b hb => hagree b (by omega)

theorem scanMixed_inl (gear : Nat → Nat) (src : List Nat)
    (msls ms mlls ml center : Nat) (n p h hh c : Nat)
    (hr : scanMixed gear src msls ms mlls ml center n p h = Sum.inl (hh, c)) :
    p * 2 ≤ c ∧ c < 2 * (p + n) ∧ c < src.length := by
  induction n generalizing p h with
  | zero => simp [scanMixed] at hr
  | succ k ih =>
    rw [scanMixed_succ] at hr
    by_cases hb : src.length ≤ p * 2 + 1
    · rw [if_pos hb] at hr; cases hr
    · rw [if_neg hb] at hr
      by_cases hc1 : ((h * 4 + gearLS gear (src.getD (p * 2) 0)) % U64) &&&
          (if p < center then msls else mlls) = 0
      · rw [if_pos hc1] at hr
        have hceq : p * 2 = c := congrArg (fun r => (Sum.elim Prod.snd (fun _ => 0) r)) hr
        omega
      · rw [if_neg hc1] at hr
        by_cases hc2 : (((h * 4 + gearLS gear (src.getD (p * 2) 0)) % U64 +
            gear (src.getD (p * 2 + 1) 0)) % U64) &&& (if p < center then ms else ml) = 0
        · rw [if_pos hc2] at hr
          have hceq : p * 2 + 1 = c := congrArg (fun r => (Sum.elim Prod.snd (fun _ => 0) r)) hr
          omega
        · rw [if_neg hc2] at hr
          have := ih (p + 1) _ hr
          omega

theorem scanRegion_inl (gear : Nat → Nat) (src : List Nat) (mls m : Nat)
    (n p h hh c : Nat) (hr : scanRegion gear src mls m n p h = Sum.inl (hh, c)) :
    p * 2 ≤ c ∧ c < 2 * (p + n) ∧ c < src.length := by
  have hm : scanMixed gear src mls m mls m (p + n) n p h = Sum.inl (hh, c) := by
    rw [scanMixed_eq_small gear src mls m mls m (p + n) n p h (by omega)]
    exact hr
  exact scanMixed_inl gear src mls m mls m (p + n) n p h hh c hm

theorem inner_sub_min (gear : Nat → Nat) (src : List Nat) (offset prev : Nat) (cfg : Config)
    (h : Nat.min src.length cfg.max_size ≤ cfg.min_size) :
    find_cutpoint_inner gear src offset prev cfg = (prev, Nat.min src.length cfg.max_size) := by
  simp only [find_cutpoint_inner]
  rw [if_pos h]

theorem inner_eq_mixed (gear : Nat → Nat) (src : List Nat) (offset prev : Nat) (cfg : Config)
    (hmin : cfg.min_size < Nat.min src.length cfg.max_size) :
    find_cutpoint_inner gear src offset prev cfg =
      Sum.elim id (fun h2 => (h2, Nat.min src.length cfg.max_size))
        (scanMixed gear src cfg.mask_s_ls cfg.mask_s cfg.mask_l_ls cfg.mask_l
          (Nat.min cfg.avg_size (Nat.min src.length cfg.max_size) / 2)
          (Nat.min src.length cfg.max_size / 2 -
            (if offset < cfg.min_size then cfg.min_size / 2 else offset / 2 * 2 / 2))
          (if offset < cfg.min_size then cfg.min_size / 2 else offset / 2 * 2 / 2)
          (if offset < cfg.min_size then 0 else prev)) := by
  simp only [find_cutpoint_inner]
  rw [if_neg (by omega : ¬ Nat.min src.length cfg.max_size ≤ cfg.min_size)]
  set SL := Nat.min src.length cfg.max_size with hSL
  set ST := (if offset < cfg.min_size then cfg.min_size / 2 else offset / 2 * 2 / 2) with hST
  set H0 := (if offset < cfg.min_size then (0 : Nat) else prev) with hH0
  set C := Nat.min cfg.avg_size SL / 2 with hC
  have hce : C ≤ SL / 2 := Nat.div_le_div_right (Nat.min_le_right _ _)
  by_cases hstc : ST < C
  · rw [if_pos hstc]
    have hsplit : SL / 2 - ST = (C - ST) + (SL / 2 - C) := by omega
    rw [hsplit, scanMixed_split]
    rw [scanMixed_eq_small gear src _ _ _ _ C (C - ST) ST H0 (by omega)]
    have he : ST + (C - ST) = C := by omega
    rw [he]
    have hmx : ST.max C = C := Nat.max_eq_right (le_of_lt hstc)
    rw [hmx]
    have hlarge : ∀ hh : Nat, scanMixed gear src cfg.mask_s_ls cfg.mask_s cfg.mask_l_ls
        cfg.mask_l C (SL / 2 - C) C hh = scanRegion gear src cfg.mask_l_ls cfg.mask_l
        (SL / 2 - C) C hh := fun hh =>
      scanMixed_eq_large gear src _ _ _ _ C (SL / 2 - C) C hh (le_refl C)
    simp only [hlarge]
    cases scanRegion gear src cfg.mask_s_ls cfg.mask_s (C - ST) ST H0 with
    | inl r => rfl
    | inr h1 =>
      show (match scanRegion gear src cfg.mask_l_ls cfg.mask_l (SL / 2 - C) C h1 with
            | Sum.inl r => r
            | Sum.inr h2 => (h2, SL)) =
          Sum.elim id (fun h2 => (h2, SL))
            (scanRegion gear src cfg.mask_l_ls cfg.mask_l (SL / 2 - C) C h1)
      cases scanRegion gear src cfg.mask_l_ls cfg.mask_l (SL / 2 - C) C h1 with
      | inl r => rfl
      | inr h2 => rfl
  · rw [if_neg hstc]
    have hmx : ST.max C = ST := Nat.max_eq_left (by omega)
    rw [hmx]
    rw [scanMixed_eq_large gear src _ _ _ _ C (SL / 2 - ST) ST H0 (by omega)]
    show (match scanRegion gear src cfg.mask_l_ls cfg.mask_l (SL / 2 - ST) ST H0 with
          | Sum.inl r => r
          | Sum.inr h2 => (h2, SL)) =
        Sum.elim id (fun h2 => (h2, SL))
          (scanRegion gear src cfg.mask_l_ls cfg.mask_l (SL / 2 - ST) ST H0)
    cases scanRegion gear src cfg.mask_l_ls cfg.mask_l (SL / 2 - ST) ST H0 with
    | inl r => rfl
    | inr h2 => rfl

theorem inner_cut_le (gear : Nat → Nat) (src : List Nat) (offset prev : Nat) (cfg : Config) :
    (find_cutpoint_inner gear src offset prev cfg).2 ≤ Nat.min src.length cfg.max_size := by
  by_cases hmin : Nat.min src.length cfg.max_size ≤ cfg.min_size
  · rw [inner_sub_min gear src offset prev cfg hmin]
  · rw [inner_eq_mixed gear src offset prev cfg (by omega)]
    set SL := Nat.min src.length cfg.max_size with hSL
    set ST := (if offset < cfg.min_size then cfg.min_size / 2 else offset / 2 * 2 / 2) with hST
    cases hs : scanMixed gear src cfg.mask_s_ls cfg.mask_s cfg.mask_l_ls cfg.mask_l
        (Nat.min cfg.avg_size SL / 2) (SL / 2 - ST) ST
        (if offset < cfg.min_size then 0 else prev) with
    | inl r =>
      by_cases hstsl : ST ≤ SL / 2
      · obtain ⟨hb1, hb2, hb3⟩ := scanMixed_inl gear src _ _ _ _ _ _ _ _ r.1 r.2
          (by rw [hs])
        simp only [Sum.elim_inl, id]
        omega
      · rw [(by omega : SL / 2 - ST = 0)] at hs
        simp [scanMixed] at hs
    | inr h2 => simp

theorem inner_cut_pos (gear : Nat → Nat) (src : List Nat) (offset prev : Nat) (cfg : Config)
    (hmin2 : 2 ≤ cfg.min_size) (hmax1 : 1 ≤ cfg.max_size) (hsrc : src ≠ []) :
    1 ≤ (find_cutpoint_inner gear src offset prev cfg).2 := by
  have hlen : 1 ≤ src.length := List.length_pos.mpr hsrc
  by_cases hmin : Nat.min src.length cfg.max_size ≤ cfg.min_size
  · rw [inner_sub_min gear src offset prev cfg hmin]
    show 1 ≤ Nat.min src.length cfg.max_size
    exact le_min hlen hmax1
  · rw [inner_eq_mixed gear src offset prev cfg (by omega)]
    set SL := Nat.min src.length cfg.max_size with hSL
    set ST := (if offset < cfg.min_size then cfg.min_size / 2 else offset / 2 * 2 / 2) with hST
    have hst1 : 1 ≤ ST := by
      rw [hST]
      by_cases ho : offset < cfg.min_size
      · rw [if_pos ho]; omega
      · rw [if_neg ho]; omega
    cases hs : scanMixed gear src cfg.mask_s_ls cfg.mask_s cfg.mask_l_ls cfg.mask_l
        (Nat.min cfg.avg_size SL / 2) (SL / 2 - ST) ST
        (if offset < cfg.min_size then 0 else prev) with
    | inl r =>
      obtain ⟨hb1, hb2, hb3⟩ := scanMixed_inl gear src _ _ _ _ _ _ _ _ r.1 r.2 (by rw [hs])
      simp only [Sum.elim_inl, id]
      omega
    | inr h2 =>
      simp only [Sum.elim_inr]
      omega

theorem find_cutpoint_def (gear : Nat → Nat) (src : List Nat) (cfg : Config) :
    find_cutpoint gear src cfg = find_cutpoint_inner gear src 0 0 cfg := rfl

theorem nat_min_eq_left {a b : Nat} (h : a ≤ b) : Nat.min a b = a := min_eq_left h

theorem nat_min_eq_right {a b : Nat} (h : b ≤ a) : Nat.min a b = b := min_eq_right h

theorem nat_le_min {a b c : Nat} (h1 : a ≤ b) (h2 : a ≤ c) : a ≤ Nat.min b c := le_min h1 h2

theorem nat_min_le_right (a b : Nat) : Nat.min a b ≤ b := min_le_right a b

theorem nat_min_le_left (a b : Nat) : Nat.min a b ≤ a := min_le_left a b

theorem nat_max_eq_left {a b : Nat} (h : b ≤ a) : Nat.max a b = a := max_eq_left h

theorem nat_max_eq_right {a b : Nat} (h : a ≤ b) : Nat.max a b = b := max_eq_right h

theorem nat_le_max_right (a b : Nat) : b ≤ Nat.max a b := le_max_right a b

theorem nat_le_max_left (a b : Nat) : a ≤ Nat.max a b := le_max_left a b

theorem take_length_of_le {T : List Nat} {L : Nat} (h : L ≤ T.length) :
    (T.take L).length = L := by
  rw [List.length_take]
  exact min_eq_left h

/-- Core incremental-scan equivalence: if scanning the buffered prefix of
length Lp found no cut and produced hash h, then resuming on any longer
buffer T from the driver's checkpoint offset max(Lp / 2 * 2, min_size) with
carried hash h gives exactly the result of a full scan of T from offset 0
with hash 0. -/
theorem resume_scan (gear : Nat → Nat) (cfg : Config) (T : List Nat) (Lp h : Nat)
    (hmin1 : 1 ≤ cfg.min_size)
    (hLpT : Lp ≤ T.length) (hminLp : cfg.min_size ≤ Lp) (hLpmax : Lp < cfg.max_size)
    (hck : find_cutpoint gear (T.take Lp) cfg = (h, Lp)) :
    find_cutpoint_inner gear T (Nat.max (Lp / 2 * 2) cfg.min_size) h cfg =
      find_cutpoint gear T cfg := by
  have hlenTake : (T.take Lp).length = Lp := take_length_of_le hLpT
  have hsl_p : Nat.min (T.take Lp).length cfg.max_size = Lp := by
    rw [hlenTake]; exact nat_min_eq_left (le_of_lt hLpmax)
  set SL := Nat.min T.length cfg.max_size with hSL
  have hLpSL : Lp ≤ SL := nat_le_min hLpT (le_of_lt hLpmax)
  have hSLle : SL ≤ T.length := nat_min_le_left _ _
  set sc := Nat.max (Lp / 2 * 2) cfg.min_size with hsc
  have hscmin : cfg.min_size ≤ sc := nat_le_max_right _ _
  by_cases hcaseA : SL ≤ cfg.min_size
  · -- whole window is sub-minimum: Lp = min_size = SL and h = 0
    have hLpmin : Lp ≤ cfg.min_size := le_trans hLpSL hcaseA
    rw [find_cutpoint_def, inner_sub_min gear (T.take Lp) 0 0 cfg
      (by rw [hsl_p]; exact hLpmin)] at hck
    have hh0 : h = 0 := by
      have := congrArg Prod.fst hck
      simpa using this.symm
    rw [find_cutpoint_def, inner_sub_min gear T sc h cfg hcaseA,
      inner_sub_min gear T 0 0 cfg hcaseA, hh0]
  · -- the later window is scannable
    have hminSL : cfg.min_size < SL := by omega
    by_cases hcaseB : Lp ≤ cfg.min_size
    · -- checkpoint came from a sub-minimum scan: Lp = min_size, h = 0
      have hLpeq : Lp = cfg.min_size := le_antisymm hcaseB hminLp
      rw [find_cutpoint_def, inner_sub_min gear (T.take Lp) 0 0 cfg
        (by rw [hsl_p]; exact hcaseB)] at hck
      have hh0 : h = 0 := by
        have := congrArg Prod.fst hck
        simpa using this.symm
      have hsceq : sc = cfg.min_size := by
        rw [hsc, hLpeq]
        exact nat_max_eq_right (by omega)
      have hscnotlt : ¬ sc < cfg.min_size := by omega
      rw [find_cutpoint_def, inner_eq_mixed gear T sc h cfg hminSL,
        inner_eq_mixed gear T 0 0 cfg hminSL]
      rw [if_neg hscnotlt, if_neg hscnotlt, if_pos (show 0 < cfg.min_size by omega),
        if_pos (show 0 < cfg.min_size by omega)]
      rw [hh0, (show sc / 2 * 2 / 2 = cfg.min_size / 2 by omega)]
    · -- the checkpoint scan really ran: min_size < Lp
      have hBlt : cfg.min_size < Lp := by omega
      set q := Lp / 2 with hq
      have hq2 : cfg.min_size / 2 ≤ q := Nat.div_le_div_right hminLp
      -- extract the no-cut hypothesis as a mixed-scan fact on the prefix
      rw [find_cutpoint_def, inner_eq_mixed gear (T.take Lp) 0 0 cfg
        (by rw [hsl_p]; exact hBlt)] at hck
      rw [hsl_p, if_pos (show 0 < cfg.min_size by omega),
        if_pos (show 0 < cfg.min_size by omega)] at hck
      have hckM : scanMixed gear (T.take Lp) cfg.mask_s_ls cfg.mask_s cfg.mask_l_ls
          cfg.mask_l (Nat.min cfg.avg_size Lp / 2) (Lp / 2 - cfg.min_size / 2)
          (cfg.min_size / 2) 0 = Sum.inr h := by
        cases hsm : scanMixed gear (T.take Lp) cfg.mask_s_ls cfg.mask_s cfg.mask_l_ls
            cfg.mask_l (Nat.min cfg.avg_size Lp / 2) (Lp / 2 - cfg.min_size / 2)
            (cfg.min_size / 2) 0 with
        | inl r =>
          obtain ⟨hb1, hb2, hb3⟩ := scanMixed_inl gear (T.take Lp) _ _ _ _ _ _ _ _ r.1 r.2
            (by rw [hsm])
          rw [hsm] at hck
          have hr2 : r.2 = Lp := by
            have := congrArg Prod.snd hck
            simpa using this
          omega
        | inr h2 =>
          rw [hsm] at hck
          have : h2 = h := by
            have := congrArg Prod.fst hck
            simpa using this
          rw [this]
      -- transport the prefix fact to the full buffer T
      have hsrcCongr : scanMixed gear T cfg.mask_s_ls cfg.mask_s cfg.mask_l_ls
          cfg.mask_l (Nat.min cfg.avg_size Lp / 2) (Lp / 2 - cfg.min_size / 2)
          (cfg.min_size / 2) 0 = Sum.inr h := by
        rw [← hckM]
        apply scanMixed_congr_src
        · omega
        · rw [hlenTake]; omega
        · intro b hb
          exact (getD_take T Lp b 0 (by omega)).symm
      -- move to the center of the full window
      have hcenterT : scanMixed gear T cfg.mask_s_ls cfg.mask_s cfg.mask_l_ls
          cfg.mask_l (Nat.min cfg.avg_size SL / 2) (Lp / 2 - cfg.min_size / 2)
          (cfg.min_size / 2) 0 = Sum.inr h := by
        by_cases havg : cfg.avg_size ≤ Lp
        · rw [(show Nat.min cfg.avg_size SL = cfg.avg_size from
              nat_min_eq_left (le_trans havg hLpSL)),
            ← (show Nat.min cfg.avg_size Lp = cfg.avg_size from nat_min_eq_left havg)]
          exact hsrcCongr
        · rw [← hsrcCongr]
          apply scanMixed_congr_center
          · have hle : Lp ≤ Nat.min cfg.avg_size SL := nat_le_min (by omega) hLpSL
            have hle2 : Lp / 2 ≤ Nat.min cfg.avg_size SL / 2 := Nat.div_le_div_right hle
            omega
          · rw [(show Nat.min cfg.avg_size Lp = Lp from nat_min_eq_right (by omega))]
            omega
      -- both scans now agree: split the full scan at pair index q
      have hscnotlt : ¬ sc < cfg.min_size := by omega
      rw [find_cutpoint_def, inner_eq_mixed gear T sc h cfg hminSL,
        inner_eq_mixed gear T 0 0 cfg hminSL]
      rw [if_neg hscnotlt, if_neg hscnotlt, if_pos (show 0 < cfg.min_size by omega),
        if_pos (show 0 < cfg.min_size by omega)]
      have hstL : sc / 2 * 2 / 2 = q := by
        by_cases hc : cfg.min_size ≤ q * 2
        · rw [hsc, nat_max_eq_left hc]; omega
        · rw [hsc, nat_max_eq_right (by omega)]; omega
      rw [hstL]
      have hqSL : q ≤ SL / 2 := Nat.div_le_div_right hLpSL
      have hsplit : SL / 2 - cfg.min_size / 2 =
          (Lp / 2 - cfg.min_size / 2) + (SL / 2 - q) := by omega
      rw [hsplit, scanMixed_split, hcenterT]
      rw [(show cfg.min_size / 2 + (Lp / 2 - cfg.min_size / 2) = q by omega)]

/-- A cut found while scanning a buffered prefix of the input persists when
the buffer grows: if scanning the first L bytes fires a mask check strictly
inside the scan window, the full scan of any extension returns the same cut
and hash. -/
theorem cut_extend (gear : Nat → Nat) (cfg : Config) (src : List Nat) (L : Nat)
    (hmin1 : 1 ≤ cfg.min_size) (hL : L ≤ src.length)
    (hcut : (find_cutpoint gear (src.take L) cfg).2 < Nat.min L cfg.max_size) :
    find_cutpoint gear src cfg = find_cutpoint gear (src.take L) cfg := by
  have hlenTake : (src.take L).length = L := take_length_of_le hL
  have hsl1 : Nat.min (src.take L).length cfg.max_size = Nat.min L cfg.max_size := by
    rw [hlenTake]
  set SL1 := Nat.min L cfg.max_size with hSL1
  set SL2 := Nat.min src.length cfg.max_size with hSL2
  have hSL1L : SL1 ≤ L := nat_min_le_left _ _
  have hSL12 : SL1 ≤ SL2 :=
    nat_le_min (le_trans (nat_min_le_left _ _) hL) (nat_min_le_right _ _)
  by_cases hsub : SL1 ≤ cfg.min_size
  · rw [find_cutpoint_def, inner_sub_min gear (src.take L) 0 0 cfg
      (by rw [hsl1]; exact hsub)] at hcut
    have hcontra : Nat.min (List.take L src).length cfg.max_size < SL1 := hcut
    rw [hsl1] at hcontra
    exact absurd hcontra (lt_irrefl _)
  · have hminSL1 : cfg.min_size < SL1 := by omega
    have hminSL2 : cfg.min_size < SL2 := by omega
    have hd2 : cfg.min_size / 2 ≤ SL1 / 2 := Nat.div_le_div_right (by omega)
    have hd3 : SL1 / 2 ≤ SL2 / 2 := Nat.div_le_div_right hSL12
    rw [find_cutpoint_def, inner_eq_mixed gear (src.take L) 0 0 cfg
      (by rw [hsl1]; exact hminSL1), hsl1,
      if_pos (show 0 < cfg.min_size by omega),
      if_pos (show 0 < cfg.min_size by omega)] at hcut
    rw [find_cutpoint_def gear (src.take L) cfg, inner_eq_mixed gear (src.take L) 0 0 cfg
      (by rw [hsl1]; exact hminSL1), hsl1]
    rw [find_cutpoint_def gear src cfg, inner_eq_mixed gear src 0 0 cfg hminSL2]
    rw [if_pos (show 0 < cfg.min_size by omega), if_pos (show 0 < cfg.min_size by omega)]
    rw [← hSL2]
    cases hsm : scanMixed gear (src.take L) cfg.mask_s_ls cfg.mask_s cfg.mask_l_ls
        cfg.mask_l (Nat.min cfg.avg_size SL1 / 2) (SL1 / 2 - cfg.min_size / 2)
        (cfg.min_size / 2) 0 with
    | inr h2 =>
      rw [hsm] at hcut
      simp at hcut
    | inl r =>
      -- transport the fired check to the extended buffer
      have hsrcCongr : scanMixed gear src cfg.mask_s_ls cfg.mask_s cfg.mask_l_ls
          cfg.mask_l (Nat.min cfg.avg_size SL1 / 2) (SL1 / 2 - cfg.min_size / 2)
          (cfg.min_size / 2) 0 = Sum.inl r := by
        rw [← hsm]
        apply scanMixed_congr_src
        · omega
        · rw [hlenTake]; omega
        · intro b hb
          exact (getD_take src L b 0 (by omega)).symm
      have hcenterT : scanMixed gear src cfg.mask_s_ls cfg.mask_s cfg.mask_l_ls
          cfg.mask_l (Nat.min cfg.avg_size SL2 / 2) (SL1 / 2 - cfg.min_size / 2)
          (cfg.min_size / 2) 0 = Sum.inl r := by
        by_cases havg : cfg.avg_size ≤ SL1
        · rw [(show Nat.min cfg.avg_size SL2 = cfg.avg_size from
              nat_min_eq_left (le_trans havg hSL12)),
            ← (show Nat.min cfg.avg_size SL1 = cfg.avg_size from nat_min_eq_left havg)]
          exact hsrcCongr
        · rw [← hsrcCongr]
          apply scanMixed_congr_center
          · have hle : SL1 ≤ Nat.min cfg.avg_size SL2 := nat_le_min (by omega) hSL12
            have hle2 : SL1 / 2 ≤ Nat.min cfg.avg_size SL2 / 2 := Nat.div_le_div_right hle
            omega
          · rw [(show Nat.min cfg.avg_size SL1 = SL1 from nat_min_eq_right (by omega))]
            omega
      have hsplit : SL2 / 2 - cfg.min_size / 2 =
          (SL1 / 2 - cfg.min_size / 2) + (SL2 / 2 - SL1 / 2) := by omega
      rw [hsplit, scanMixed_split, hcenterT]
      rfl

/-! Safety: the checked scan (every access through the scan window) agrees
with the unchecked scan, so no read ever reaches index scan_len or beyond. -/

theorem getElem?_take_eq (src : List Nat) (L b : Nat) (hb : b < L) (hL : L ≤ src.length) :
    (src.take L)[b]? = some (src.getD b 0) := by
  have hbs : b < src.length := lt_of_lt_of_le hb hL
  rw [List.getElem?_take, if_pos hb, List.getElem?_eq_getElem hbs,
    List.getD_eq_getElem?_getD, List.getElem?_eq_getElem hbs]
  rfl

theorem scanRegionChecked_eq (gear : Nat → Nat) (src : List Nat) (L mls m : Nat)
    (n p h : Nat) (hL : L ≤ src.length) (hrange : 2 * (p + n) ≤ L) :
    scanRegionChecked gear (src.take L) src.length mls m n p h =
      some (scanRegion gear src mls m n p h) := by
  induction n generalizing p h with
  | zero => rfl
  | succ k ih =>
    have hb : ¬ src.length ≤ p * 2 + 1 := by omega
    have h0 := getElem?_take_eq src L (p * 2) (by omega) hL
    have h1 := getElem?_take_eq src L (p * 2 + 1) (by omega) hL
    rw [scanRegion_succ, if_neg hb]
    show (if src.length ≤ p * 2 + 1 then some (Sum.inr h)
      else
        match (src.take L)[p * 2]? with
        | none => none
        | some x0 =>
          if ((h * 4 + gearLS gear x0) % U64) &&& mls = 0 then
            some (Sum.inl ((h * 4 + gearLS gear x0) % U64, p * 2))
          else
            match (src.take L)[p * 2 + 1]? with
            | none => none
            | some x1 =>
              if (((h * 4 + gearLS gear x0) % U64 + gear x1) % U64) &&& m = 0 then
                some (Sum.inl ((((h * 4 + gearLS gear x0) % U64 + gear x1) % U64), p * 2 + 1))
              else scanRegionChecked gear (src.take L) src.length mls m k (p + 1)
                (((h * 4 + gearLS gear x0) % U64 + gear x1) % U64)) = _
    rw [if_neg hb, h0, h1]
    show (if ((h * 4 + gearLS gear (src.getD (p * 2) 0)) % U64) &&& mls = 0 then
        some (Sum.inl ((h * 4 + gearLS gear (src.getD (p * 2) 0)) % U64, p * 2))
      else
        if (((h * 4 + gearLS gear (src.getD (p * 2) 0)) % U64 +
            gear (src.getD (p * 2 + 1) 0)) % U64) &&& m = 0 then
          some (Sum.inl ((((h * 4 + gearLS gear (src.getD (p * 2) 0)) % U64 +
            gear (src.getD (p * 2 + 1) 0)) % U64), p * 2 + 1))
        else scanRegionChecked gear (src.take L) src.length mls m k (p + 1)
          (((h * 4 + gearLS gear (src.getD (p * 2) 0)) % U64 +
            gear (src.getD (p * 2 + 1) 0)) % U64)) = _
    by_cases hc1 : ((h * 4 + gearLS gear (src.getD (p * 2) 0)) % U64) &&& mls = 0
    · rw [if_pos hc1, if_pos hc1]
    · rw [if_neg hc1, if_neg hc1]
      by_cases hc2 : (((h * 4 + gearLS gear (src.getD (p * 2) 0)) % U64 +
          gear (src.getD (p * 2 + 1) 0)) % U64) &&& m = 0
      · rw [if_pos hc2, if_pos hc2]
      · rw [if_neg hc2, if_neg hc2]
        exact ih (p + 1) _ (by omega)

theorem innerChecked_eq (gear : Nat → Nat) (src : List Nat) (offset prev : Nat)
    (cfg : Config) :
    find_cutpoint_innerChecked gear src offset prev cfg =
      some (find_cutpoint_inner gear src offset prev cfg) := by
  simp only [find_cutpoint_innerChecked, find_cutpoint_inner]
  by_cases hsub : Nat.min src.length cfg.max_size ≤ cfg.min_size
  · rw [if_pos hsub, if_pos hsub]
  · rw [if_neg hsub, if_neg hsub]
    set SL := Nat.min src.length cfg.max_size with hSL
    set ST := (if offset < cfg.min_size then cfg.min_size / 2 else offset / 2 * 2 / 2) with hST
    set H0 := (if offset < cfg.min_size then (0 : Nat) else prev) with hH0
    set C := Nat.min cfg.avg_size SL / 2 with hC
    have hSLlen : SL ≤ src.length := nat_min_le_left _ _
    have hce : C ≤ SL / 2 := Nat.div_le_div_right (nat_min_le_right _ _)
    by_cases hstc : ST < C
    · rw [if_pos hstc, if_pos hstc,
        scanRegionChecked_eq gear src SL cfg.mask_s_ls cfg.mask_s (C - ST) ST H0 hSLlen
          (by omega)]
      cases scanRegion gear src cfg.mask_s_ls cfg.mask_s (C - ST) ST H0 with
      | inl r => rfl
      | inr h1 =>
        show (match scanRegionChecked gear (src.take SL) src.length cfg.mask_l_ls
              cfg.mask_l (SL / 2 - ST.max C) (ST.max C) h1 with
            | none => none
            | some (Sum.inl r) => some r
            | some (Sum.inr h2) => some (h2, SL)) =
          some (match scanRegion gear src cfg.mask_l_ls cfg.mask_l
              (SL / 2 - ST.max C) (ST.max C) h1 with
            | Sum.inl r => r
            | Sum.inr h2 => (h2, SL))
        by_cases hse : ST.max C ≤ SL / 2
        · rw [scanRegionChecked_eq gear src SL cfg.mask_l_ls cfg.mask_l
            (SL / 2 - ST.max C) (ST.max C) h1 hSLlen (by omega)]
          cases scanRegion gear src cfg.mask_l_ls cfg.mask_l (SL / 2 - ST.max C)
              (ST.max C) h1 with
          | inl r => rfl
          | inr h2 => rfl
        · rw [(show SL / 2 - ST.max C = 0 by omega)]
          rfl
    · rw [if_neg hstc, if_neg hstc]
      show (match scanRegionChecked gear (src.take SL) src.length cfg.mask_l_ls
            cfg.mask_l (SL / 2 - ST.max C) (ST.max C) H0 with
          | none => none
          | some (Sum.inl r) => some r
          | some (Sum.inr h2) => some (h2, SL)) =
        some (match scanRegion gear src cfg.mask_l_ls cfg.mask_l
            (SL / 2 - ST.max C) (ST.max C) H0 with
          | Sum.inl r => r
          | Sum.inr h2 => (h2, SL))
      by_cases hse : ST.max C ≤ SL / 2
      · rw [scanRegionChecked_eq gear src SL cfg.mask_l_ls cfg.mask_l
          (SL / 2 - ST.max C) (ST.max C) H0 hSLlen (by omega)]
        cases scanRegion gear src cfg.mask_l_ls cfg.mask_l (SL / 2 - ST.max C)
            (ST.max C) H0 with
        | inl r => rfl
        | inr h2 => rfl
      · rw [(show SL / 2 - ST.max C = 0 by omega)]
        rfl

/-! Gear-hash unrolling algebra. -/

theorem unrolledFirst_eq (gear : Nat → Nat) (h b0 : Nat) :
    unrolledFirst gear h b0 = gearStep gear h b0 * 2 % U64 := by
  simp only [unrolledFirst, gearStep, gearLS, U64]
  omega

theorem unrolledSecond_eq (gear : Nat → Nat) (h b0 b1 : Nat) :
    unrolledSecond gear (unrolledFirst gear h b0) b1 =
      gearStep gear (gearStep gear h b0) b1 := by
  simp only [unrolledSecond, unrolledFirst, gearStep, gearLS, U64]
  omega

theorem land_eq_zero_iff (a b : Nat) :
    a &&& b = 0 ↔ ∀ i, a.testBit i = false ∨ b.testBit i = false := by
  constructor
  · intro h i
    by_cases ha : a.testBit i = true
    · by_cases hb : b.testBit i = true
      · exfalso
        have hx := congrArg (fun x => x.testBit i) h
        simp only [Nat.testBit_land, Nat.zero_testBit, ha, hb] at hx
        exact absurd hx (by simp)
      · exact Or.inr (by simpa using hb)
    · exact Or.inl (by simpa using ha)
  · intro h
    apply Nat.eq_of_testBit_eq
    intro i
    rw [Nat.testBit_land, Nat.zero_testBit]
    rcases h i with h1 | h1 <;> simp [h1]

theorem mul_two_testBit_succ (x j : Nat) : (x * 2).testBit (j + 1) = x.testBit j := by
  rw [show x * 2 = x <<< 1 from by rw [Nat.shiftLeft_eq], Nat.testBit_shiftLeft]
  simp

theorem mul_two_testBit_zero (x : Nat) : (x * 2).testBit 0 = false := by
  rw [show x * 2 = x <<< 1 from by rw [Nat.shiftLeft_eq], Nat.testBit_shiftLeft]
  simp

theorem land_double_mod (s m : Nat) (hm : m < 2 ^ 63) :
    (s * 2 % 2 ^ 64 &&& m * 2 = 0) ↔ (s &&& m = 0) := by
  rw [land_eq_zero_iff, land_eq_zero_iff]
  constructor
  · intro hl i
    by_cases hi : i < 63
    · rcases hl (i + 1) with h1 | h1
      · left
        rw [Nat.testBit_mod_two_pow, mul_two_testBit_succ] at h1
        simpa [show i + 1 < 64 by omega] using h1
      · right
        rw [mul_two_testBit_succ] at h1
        exact h1
    · right
      exact Nat.testBit_lt_two_pow
        (lt_of_lt_of_le hm (Nat.pow_le_pow_right (by omega) (by omega)))
  · intro hr i
    cases i with
    | zero =>
      left
      rw [Nat.testBit_mod_two_pow]
      simp [mul_two_testBit_zero]
    | succ j =>
      by_cases hj : j + 1 < 64
      · rcases hr j with h1 | h1
        · left
          rw [Nat.testBit_mod_two_pow]
          simp [mul_two_testBit_succ, h1]
        · right
          rw [mul_two_testBit_succ]
          exact h1
      · left
        rw [Nat.testBit_mod_two_pow]
        simp [show ¬ (j + 1 < 64) from hj]

theorem unrolled_intermediate_check (gear : Nat → Nat) (h b0 m : Nat) (hm : m < 2 ^ 63) :
    (unrolledFirst gear h b0 &&& maskLS m = 0) ↔ (gearStep gear h b0 &&& m = 0) := by
  have hml : maskLS m = m * 2 := by
    simp only [maskLS, U64]
    exact Nat.mod_eq_of_lt (by omega)
  rw [unrolledFirst_eq, hml]
  exact land_double_mod (gearStep gear h b0) m hm

/-! Properties of the reference chunking. -/

theorem chunkAllGo_nil (gear : Nat → Nat) (cfg : Config) (fuel processed : Nat) :
    chunkAllGo gear cfg fuel [] processed = [] := by
  cases fuel <;> rfl

theorem take_ne_nil_of_pos {l : List Nat} {n : Nat} (hn : 1 ≤ n) (hl : l ≠ []) :
    l.take n ≠ [] := by
  cases l with
  | nil => exact absurd rfl hl
  | cons x r =>
    obtain ⟨k, hk⟩ : ∃ k, n = k + 1 := ⟨n - 1, by omega⟩
    rw [hk, List.take_succ_cons]
    simp

theorem window_cut_facts (gear : Nat → Nat) (cfg : Config) (rest : List Nat)
    (hmin2 : 2 ≤ cfg.min_size) (hmax1 : 1 ≤ cfg.max_size) (hne : rest ≠ []) :
    1 ≤ (find_cutpoint gear (rest.take (Nat.min rest.length cfg.max_size)) cfg).2 ∧
      (find_cutpoint gear (rest.take (Nat.min rest.length cfg.max_size)) cfg).2 ≤
        Nat.min rest.length cfg.max_size := by
  have hlen1 : 1 ≤ rest.length := List.length_pos.mpr hne
  have hslen1 : 1 ≤ Nat.min rest.length cfg.max_size := nat_le_min hlen1 hmax1
  have hslenle : Nat.min rest.length cfg.max_size ≤ rest.length := nat_min_le_left _ _
  have hwlen : (rest.take (Nat.min rest.length cfg.max_size)).length =
      Nat.min rest.length cfg.max_size := take_length_of_le hslenle
  have hwne : rest.take (Nat.min rest.length cfg.max_size) ≠ [] :=
    take_ne_nil_of_pos hslen1 hne
  constructor
  · rw [find_cutpoint_def]
    exact inner_cut_pos gear _ 0 0 cfg hmin2 hmax1 hwne
  · rw [find_cutpoint_def]
    have := inner_cut_le gear (rest.take (Nat.min rest.length cfg.max_size)) 0 0 cfg
    rw [hwlen] at this
    exact le_trans this (nat_min_le_left _ _)

theorem chunkAllGo_spec (gear : Nat → Nat) (cfg : Config)
    (hmin2 : 2 ≤ cfg.min_size) (hmax1 : 1 ≤ cfg.max_size) :
    ∀ fuel rest processed, rest.length ≤ fuel →
      chainedFrom processed (chunkAllGo gear cfg fuel rest processed) ∧
      ((chunkAllGo gear cfg fuel rest processed).map Chunk.data).flatten = rest ∧
      (∀ c ∈ chunkAllGo gear cfg fuel rest processed,
        1 ≤ c.length ∧ c.length = c.data.length ∧ c.length ≤ cfg.max_size) := by
  intro fuel
  induction fuel with
  | zero =>
    intro rest processed hle
    have : rest = [] := List.length_eq_zero.mp (by omega)
    subst this
    simp [chunkAllGo, chainedFrom]
  | succ f ih =>
    intro rest processed hle
    cases rest with
    | nil => simp [chunkAllGo, chainedFrom]
    | cons x r =>
      obtain ⟨hcut1, hcutle⟩ := window_cut_facts gear cfg (x :: r) hmin2 hmax1 (by simp)
      set CUT := (find_cutpoint gear ((x :: r).take (Nat.min (x :: r).length cfg.max_size))
        cfg).2 with hCUT
      have hcutlen : CUT ≤ (x :: r).length := le_trans hcutle (nat_min_le_left _ _)
      have hdroplen : ((x :: r).drop CUT).length ≤ f := by
        rw [List.length_drop]
        have : 1 ≤ (x :: r).length := by simp
        omega
      obtain ⟨ihc, ihf, ihb⟩ := ih ((x :: r).drop CUT) (processed + CUT) hdroplen
      refine ⟨⟨rfl, ihc⟩, ?_, ?_⟩
      · show (x :: r).take CUT ++
          ((chunkAllGo gear cfg f ((x :: r).drop CUT) (processed + CUT)).map
            Chunk.data).flatten = x :: r
        rw [ihf, List.take_append_drop]
      · intro c hc
        rcases List.mem_cons.mp hc with hceq | hctail
        · subst hceq
          refine ⟨hcut1, ?_, le_trans hcutle (nat_min_le_right _ _)⟩
          show CUT = ((x :: r).take CUT).length
          rw [take_length_of_le hcutlen]
        · exact ihb c hctail

theorem chunkAllGo_fuel (gear : Nat → Nat) (cfg : Config)
    (hmin2 : 2 ≤ cfg.min_size) (hmax1 : 1 ≤ cfg.max_size) :
    ∀ f1 f2 rest processed, rest.length ≤ f1 → rest.length ≤ f2 →
      chunkAllGo gear cfg f1 rest processed = chunkAllGo gear cfg f2 rest processed := by
  intro f1
  induction f1 with
  | zero =>
    intro f2 rest processed h1 h2
    have : rest = [] := List.length_eq_zero.mp (by omega)
    subst this
    rw [chunkAllGo_nil, chunkAllGo_nil]
  | succ f ih =>
    intro f2 rest processed h1 h2
    cases rest with
    | nil => rw [chunkAllGo_nil, chunkAllGo_nil]
    | cons x r =>
      cases f2 with
      | zero => simp at h2
      | succ g =>
        obtain ⟨hcut1, hcutle⟩ := window_cut_facts gear cfg (x :: r) hmin2 hmax1 (by simp)
        set CUT := (find_cutpoint gear
          ((x :: r).take (Nat.min (x :: r).length cfg.max_size)) cfg).2 with hCUT
        have hdroplen : ((x :: r).drop CUT).length ≤ f := by
          rw [List.length_drop]
          have hxr : 1 ≤ (x :: r).length := by simp
          omega
        have hdroplen2 : ((x :: r).drop CUT).length ≤ g := by
          rw [List.length_drop]
          have hxr : 1 ≤ (x :: r).length := by simp
          omega
        show _ :: chunkAllGo gear cfg f _ _ = _ :: chunkAllGo gear cfg g _ _
        rw [ih g _ _ hdroplen hdroplen2]

theorem cut_lower (gear : Nat → Nat) (cfg : Config) (w : List Nat)
    (hm1 : 1 ≤ cfg.min_size) (hlenw : w.length ≤ cfg.max_size)
    (hcut : (find_cutpoint gear w cfg).2 < w.length) :
    cfg.min_size - 1 ≤ (find_cutpoint gear w cfg).2 := by
  have hSL : Nat.min w.length cfg.max_size = w.length := nat_min_eq_left hlenw
  by_cases hsub : Nat.min w.length cfg.max_size ≤ cfg.min_size
  · rw [find_cutpoint_def, inner_sub_min gear w 0 0 cfg hsub] at hcut
    have hcontra : Nat.min w.length cfg.max_size < w.length := hcut
    rw [hSL] at hcontra
    omega
  · rw [find_cutpoint_def, inner_eq_mixed gear w 0 0 cfg (by omega),
      if_pos (show 0 < cfg.min_size by omega),
      if_pos (show 0 < cfg.min_size by omega)] at hcut ⊢
    cases hsm : scanMixed gear w cfg.mask_s_ls cfg.mask_s cfg.mask_l_ls cfg.mask_l
        (Nat.min cfg.avg_size (Nat.min w.length cfg.max_size) / 2)
        (Nat.min w.length cfg.max_size / 2 - cfg.min_size / 2) (cfg.min_size / 2) 0 with
    | inl r =>
      obtain ⟨hb1, hb2, hb3⟩ := scanMixed_inl gear w _ _ _ _ _ _ _ _ r.1 r.2 (by rw [hsm])
      simp only [Sum.elim_inl, id]
      omega
    | inr h2 =>
      rw [hsm] at hcut
      have hcontra : Nat.min w.length cfg.max_size < w.length := hcut
      rw [hSL] at hcontra
      omega

theorem chunkAllGo_minlen (gear : Nat → Nat) (cfg : Config)
    (hmin2 : 2 ≤ cfg.min_size) (hminmax : cfg.min_size < cfg.max_size) :
    ∀ fuel rest processed, rest.length ≤ fuel →
      ∀ c ∈ chunkAllGo gear cfg fuel rest processed,
        c.offset + c.length < processed + rest.length →
          cfg.min_size - 1 ≤ c.length := by
  intro fuel
  induction fuel with
  | zero =>
    intro rest processed hle c hc
    have : rest = [] := List.length_eq_zero.mp (by omega)
    subst this
    simp [chunkAllGo] at hc
  | succ f ih =>
    intro rest processed hle c hc hnf
    cases rest with
    | nil => simp [chunkAllGo] at hc
    | cons x r =>
      obtain ⟨hcut1, hcutle⟩ := window_cut_facts gear cfg (x :: r) hmin2 (by omega) (by simp)
      set CUT := (find_cutpoint gear ((x :: r).take (Nat.min (x :: r).length cfg.max_size))
        cfg).2 with hCUT
      have hcutlen : CUT ≤ (x :: r).length := le_trans hcutle (nat_min_le_left _ _)
      rcases List.mem_cons.mp hc with hceq | hctail
      · subst hceq
        simp only at hnf
        have hcutlt : CUT < (x :: r).length := by omega
        have hwlen : ((x :: r).take (Nat.min (x :: r).length cfg.max_size)).length =
            Nat.min (x :: r).length cfg.max_size :=
          take_length_of_le (nat_min_le_left _ _)
        show cfg.min_size - 1 ≤ CUT
        by_cases hcw : CUT < Nat.min (x :: r).length cfg.max_size
        · have := cut_lower gear cfg ((x :: r).take (Nat.min (x :: r).length cfg.max_size))
            (by omega) (by rw [hwlen]; exact nat_min_le_right _ _) (by rw [hwlen]; exact hcw)
          exact this
        · have hceq2 : CUT = Nat.min (x :: r).length cfg.max_size := by omega
          by_cases hlm : (x :: r).length ≤ cfg.max_size
          · rw [nat_min_eq_left hlm] at hceq2
            omega
          · rw [nat_min_eq_right (by omega)] at hceq2
            omega
      · refine ih ((x :: r).drop CUT) (processed + CUT) ?_ c hctail ?_
        · rw [List.length_drop]
          have hxr : 1 ≤ (x :: r).length := by simp
          omega
        · rw [List.length_drop]
          omega

/-! The refill loop of the blocking iterator. -/

theorem refill_stop (cfg : Config) (fuel : Nat) (buf : List Nat) (eof : Bool) (rdr : Reader)
    (h : ¬ (eof = false ∧ buf.length < cfg.max_size)) :
    refill cfg fuel buf eof rdr = (true, buf, eof, rdr) := by
  cases fuel with
  | zero => rfl
  | succ f =>
    simp only [refill]
    rw [if_neg h]

theorem refill_fail (cfg : Config) (fuel : Nat) (buf p : List Nat) (rest : List ReadStep)
    (hcond : buf.length < cfg.max_size) :
    refill cfg (fuel + 1) buf false ⟨p, ReadStep.failRead :: rest⟩ =
      (false, buf, false, ⟨p, rest⟩) := by
  simp only [refill]
  rw [if_pos (And.intro trivial hcond)]

theorem refill_deliver (cfg : Config) (fuel : Nat) (buf p : List Nat) (k : Nat)
    (rest : List ReadStep) (hcond : buf.length < cfg.max_size) :
    refill cfg (fuel + 1) buf false ⟨p, ReadStep.deliver k :: rest⟩ =
      (if Nat.min (Nat.min k (cfg.max_size - buf.length)) p.length = 0 then
        (true, buf, true, ⟨p, rest⟩)
      else
        refill cfg fuel
          (buf ++ p.take (Nat.min (Nat.min k (cfg.max_size - buf.length)) p.length)) false
          ⟨p.drop (Nat.min (Nat.min k (cfg.max_size - buf.length)) p.length), rest⟩) := by
  simp only [refill]
  rw [if_pos (And.intro trivial hcond)]

theorem refill_greedy (cfg : Config) (fuel : Nat) (buf p : List Nat)
    (hcond : buf.length < cfg.max_size) :
    refill cfg (fuel + 1) buf false ⟨p, []⟩ =
      (if Nat.min (cfg.max_size - buf.length) p.length = 0 then
        (true, buf, true, ⟨p, []⟩)
      else
        refill cfg fuel (buf ++ p.take (Nat.min (cfg.max_size - buf.length) p.length)) false
          ⟨p.drop (Nat.min (cfg.max_size - buf.length) p.length), []⟩) := by
  simp only [refill]
  rw [if_pos (And.intro trivial hcond)]

theorem length_append_take (buf p : List Nat) (m : Nat) (hmp : m ≤ p.length) :
    (buf ++ p.take m).length = buf.length + m := by
  rw [List.length_append, List.length_take]
  omega

theorem nat_min_zero_iff (a b : Nat) : Nat.min a b = 0 ↔ a = 0 ∨ b = 0 := by
  constructor
  · intro h
    by_cases hab : a ≤ b
    · rw [nat_min_eq_left hab] at h; exact Or.inl h
    · rw [nat_min_eq_right (by omega)] at h; exact Or.inr h
  · intro h
    rcases h with h | h
    · rw [h, nat_min_eq_left (Nat.zero_le b)]
    · rw [h, nat_min_eq_right (Nat.zero_le a)]

theorem refill_ok (cfg : Config) :
    ∀ fuel (buf : List Nat) (rdr : Reader), ErrorFree rdr.script →
      rdr.script.length + (cfg.max_size - buf.length) < fuel →
      ∃ scr2 : List ReadStep, ErrorFree scr2 ∧ scr2.length ≤ rdr.script.length ∧
        refill cfg fuel buf false rdr =
          (true, buf ++ rdr.pending.take (cfg.max_size - buf.length),
            decide (rdr.pending.length < cfg.max_size - buf.length),
            ⟨rdr.pending.drop (cfg.max_size - buf.length), scr2⟩) := by
  intro fuel
  induction fuel with
  | zero =>
    intro buf rdr hef hlt
    omega
  | succ f ih =>
    intro buf rdr hef hlt
    obtain ⟨p, scr⟩ := rdr
    by_cases hcond : buf.length < cfg.max_size
    case neg =>
      refine ⟨scr, hef, le_refl _, ?_⟩
      rw [refill_stop cfg (f + 1) buf false ⟨p, scr⟩ (by simp only [not_and]; omega)]
      have hneed : cfg.max_size - buf.length = 0 := by omega
      rw [hneed]
      simp
    case pos =>
      have hneed1 : 1 ≤ cfg.max_size - buf.length := by omega
      cases scr with
      | nil =>
        rw [refill_greedy cfg f buf p hcond]
        by_cases hm0 : Nat.min (cfg.max_size - buf.length) p.length = 0
        · have hpnil : p = [] := by
            rcases (nat_min_zero_iff _ _).mp hm0 with h | h
            · omega
            · exact List.length_eq_zero.mp h
          refine ⟨[], rfl, le_refl _, ?_⟩
          rw [if_pos hm0]
          subst hpnil
          simp only [List.take_nil, List.append_nil, List.drop_nil, List.length_nil]
          rw [show decide (0 < cfg.max_size - buf.length) = true from by
            simp only [decide_eq_true_eq]; omega]
        · set m := Nat.min (cfg.max_size - buf.length) p.length with hm
          have hmle : m ≤ cfg.max_size - buf.length := nat_min_le_left _ _
          have hmp : m ≤ p.length := nat_min_le_right _ _
          have hm1 : 1 ≤ m := by omega
          have hblen : (buf ++ p.take m).length = buf.length + m :=
            length_append_take buf p m hmp
          have hneed2 : cfg.max_size - (buf ++ p.take m).length =
              (cfg.max_size - buf.length) - m := by
            rw [hblen]; omega
          obtain ⟨scr2, hef2, hlen2, heq⟩ := ih (buf ++ p.take m) ⟨p.drop m, []⟩ rfl
            (by
              show (0 : Nat) + (cfg.max_size - (buf ++ p.take m).length) < f
              rw [hneed2]
              have hlt2 : 0 + (cfg.max_size - buf.length) < f + 1 := hlt
              omega)
          rw [if_neg hm0, heq]
          refine ⟨scr2, hef2, by simpa using hlen2, ?_⟩
          show (true, (buf ++ p.take m) ++ (p.drop m).take
              (cfg.max_size - (buf ++ p.take m).length),
            decide ((p.drop m).length < cfg.max_size - (buf ++ p.take m).length),
            (⟨(p.drop m).drop (cfg.max_size - (buf ++ p.take m).length), scr2⟩ : Reader)) = _
          rw [hneed2]
          have hX : (buf ++ p.take m) ++ (p.drop m).take ((cfg.max_size - buf.length) - m) =
              buf ++ p.take (cfg.max_size - buf.length) := by
            rw [List.append_assoc, ← List.take_add,
              (show m + ((cfg.max_size - buf.length) - m) = cfg.max_size - buf.length by omega)]
          have hE : decide ((p.drop m).length < (cfg.max_size - buf.length) - m) =
              decide (p.length < cfg.max_size - buf.length) := by
            rw [List.length_drop]
            exact decide_eq_decide.mpr (by omega)
          have hD : (p.drop m).drop ((cfg.max_size - buf.length) - m) =
              p.drop (cfg.max_size - buf.length) := by
            rw [List.drop_drop,
              (show m + ((cfg.max_size - buf.length) - m) = cfg.max_size - buf.length by omega)]
          rw [hX, hE, hD]
      | cons st rest =>
        cases st with
        | failRead =>
          exfalso
          simp [ErrorFree, List.all_cons, stepOk] at hef
        | deliver k =>
          have hk1 : 1 ≤ k ∧ ErrorFree rest := by
            simpa [ErrorFree, List.all_cons, stepOk] using hef
          rw [refill_deliver cfg f buf p k rest hcond]
          by_cases hm0 : Nat.min (Nat.min k (cfg.max_size - buf.length)) p.length = 0
          · have hpnil : p = [] := by
              rcases (nat_min_zero_iff _ _).mp hm0 with h | h
              · rcases (nat_min_zero_iff _ _).mp h with h2 | h2 <;> omega
              · exact List.length_eq_zero.mp h
            refine ⟨rest, hk1.2, by simp, ?_⟩
            rw [if_pos hm0]
            subst hpnil
            simp only [List.take_nil, List.append_nil, List.drop_nil, List.length_nil]
            rw [show decide (0 < cfg.max_size - buf.length) = true from by
              simp only [decide_eq_true_eq]; omega]
          · set m := Nat.min (Nat.min k (cfg.max_size - buf.length)) p.length with hm
            have hmle : m ≤ cfg.max_size - buf.length :=
              le_trans (nat_min_le_left _ _) (nat_min_le_right _ _)
            have hmp : m ≤ p.length := nat_min_le_right _ _
            have hm1 : 1 ≤ m := by omega
            have hblen : (buf ++ p.take m).length = buf.length + m :=
              length_append_take buf p m hmp
            have hneed2 : cfg.max_size - (buf ++ p.take m).length =
                (cfg.max_size - buf.length) - m := by
              rw [hblen]; omega
            obtain ⟨scr2, hef2, hlen2, heq⟩ := ih (buf ++ p.take m) ⟨p.drop m, rest⟩ hk1.2
              (by
                show rest.length + (cfg.max_size - (buf ++ p.take m).length) < f
                rw [hneed2]
                have hlt2 : rest.length + 1 + (cfg.max_size - buf.length) < f + 1 := hlt
                omega)
            rw [if_neg hm0, heq]
            have hlen2b : scr2.length ≤ rest.length := hlen2
            refine ⟨scr2, hef2, by show scr2.length ≤ rest.length + 1; omega, ?_⟩
            show (true, (buf ++ p.take m) ++ (p.drop m).take
                (cfg.max_size - (buf ++ p.take m).length),
              decide ((p.drop m).length < cfg.max_size - (buf ++ p.take m).length),
              (⟨(p.drop m).drop (cfg.max_size - (buf ++ p.take m).length), scr2⟩ : Reader)) = _
            rw [hneed2]
            have hX : (buf ++ p.take m) ++ (p.drop m).take ((cfg.max_size - buf.length) - m) =
                buf ++ p.take (cfg.max_size - buf.length) := by
              rw [List.append_assoc, ← List.take_add,
                (show m + ((cfg.max_size - buf.length) - m) =
                  cfg.max_size - buf.length by omega)]
            have hE : decide ((p.drop m).length < (cfg.max_size - buf.length) - m) =
                decide (p.length < cfg.max_size - buf.length) := by
              rw [List.length_drop]
              exact decide_eq_decide.mpr (by omega)
            have hD : (p.drop m).drop ((cfg.max_size - buf.length) - m) =
                p.drop (cfg.max_size - buf.length) := by
              rw [List.drop_drop,
                (show m + ((cfg.max_size - buf.length) - m) =
                  cfg.max_size - buf.length by omega)]
            rw [hX, hE, hD]

/-! One step of the blocking iterator, by refill outcome. -/

theorem iterRun_succ (gear : Nat → Nat) (cfg : Config) (fuel : Nat) (s : IterState)
    (rdr : Reader) :
    iterRun gear cfg (fuel + 1) s rdr =
      (match iterNext gear cfg s rdr with
       | (none, _, _) => []
       | (some item, s1, rdr1) => item :: iterRun gear cfg fuel s1 rdr1) := rfl

theorem iterNext_none_eof (gear : Nat → Nat) (cfg : Config) (s : IterState) (rdr : Reader)
    (h1 : s.eof = true) (h2 : s.buf = []) :
    iterNext gear cfg s rdr = (none, s, rdr) := by
  simp only [iterNext]
  rw [if_pos ⟨h1, h2⟩]

theorem iterNext_err (gear : Nat → Nat) (cfg : Config) (s : IterState) (rdr : Reader)
    (buf1 : List Nat) (eof1 : Bool) (rdr1 : Reader)
    (hne : ¬ (s.eof = true ∧ s.buf = []))
    (href : refill cfg (refillFuel cfg rdr) s.buf s.eof rdr = (false, buf1, eof1, rdr1)) :
    iterNext gear cfg s rdr =
      (some (Except.error ()), ⟨buf1, s.processed, eof1⟩, rdr1) := by
  simp only [iterNext]
  rw [if_neg hne, href]

theorem iterNext_none_empty (gear : Nat → Nat) (cfg : Config) (s : IterState) (rdr : Reader)
    (eof1 : Bool) (rdr1 : Reader)
    (hne : ¬ (s.eof = true ∧ s.buf = []))
    (href : refill cfg (refillFuel cfg rdr) s.buf s.eof rdr = (true, [], eof1, rdr1)) :
    iterNext gear cfg s rdr = (none, ⟨[], s.processed, eof1⟩, rdr1) := by
  simp only [iterNext]
  rw [if_neg hne, href]
  rfl

theorem iterNext_chunk (gear : Nat → Nat) (cfg : Config) (s : IterState) (rdr : Reader)
    (buf1 : List Nat) (eof1 : Bool) (rdr1 : Reader)
    (hne : ¬ (s.eof = true ∧ s.buf = []))
    (href : refill cfg (refillFuel cfg rdr) s.buf s.eof rdr = (true, buf1, eof1, rdr1))
    (hb1 : buf1 ≠ []) :
    iterNext gear cfg s rdr =
      (some (Except.ok
        ⟨(find_cutpoint gear (buf1.take (Nat.min buf1.length cfg.max_size)) cfg).1,
          buf1.take (find_cutpoint gear (buf1.take (Nat.min buf1.length cfg.max_size)) cfg).2,
          s.processed,
          (find_cutpoint gear (buf1.take (Nat.min buf1.length cfg.max_size)) cfg).2⟩),
        ⟨buf1.drop (find_cutpoint gear (buf1.take (Nat.min buf1.length cfg.max_size)) cfg).2,
          s.processed +
            (find_cutpoint gear (buf1.take (Nat.min buf1.length cfg.max_size)) cfg).2,
          eof1⟩, rdr1) := by
  simp only [iterNext]
  rw [if_neg hne, href]
  show (if buf1 = [] then
      ((none : Option (Except Unit Chunk)), (⟨buf1, s.processed, eof1⟩ : IterState), rdr1)
    else
      (some (Except.ok
        ⟨(find_cutpoint gear (buf1.take (Nat.min buf1.length cfg.max_size)) cfg).1,
          buf1.take (find_cutpoint gear (buf1.take (Nat.min buf1.length cfg.max_size)) cfg).2,
          s.processed,
          (find_cutpoint gear (buf1.take (Nat.min buf1.length cfg.max_size)) cfg).2⟩),
        ⟨buf1.drop (find_cutpoint gear (buf1.take (Nat.min buf1.length cfg.max_size)) cfg).2,
          s.processed +
            (find_cutpoint gear (buf1.take (Nat.min buf1.length cfg.max_size)) cfg).2,
          eof1⟩, rdr1)) = _
  rw [if_neg hb1]

theorem chunk_step_eq (gear : Nat → Nat) (cfg : Config)
    (hmin2 : 2 ≤ cfg.min_size) (hmax1 : 1 ≤ cfg.max_size)
    (rest : List Nat) (processed : Nat) (hne : rest ≠ []) :
    chunkAllGo gear cfg rest.length rest processed =
      ⟨(find_cutpoint gear (rest.take (Nat.min rest.length cfg.max_size)) cfg).1,
        rest.take (find_cutpoint gear (rest.take (Nat.min rest.length cfg.max_size)) cfg).2,
        processed,
        (find_cutpoint gear (rest.take (Nat.min rest.length cfg.max_size)) cfg).2⟩ ::
      chunkAllGo gear cfg
        (rest.drop
          (find_cutpoint gear (rest.take (Nat.min rest.length cfg.max_size)) cfg).2).length
        (rest.drop (find_cutpoint gear (rest.take (Nat.min rest.length cfg.max_size)) cfg).2)
        (processed +
          (find_cutpoint gear (rest.take (Nat.min rest.length cfg.max_size)) cfg).2) := by
  cases rest with
  | nil => exact absurd rfl hne
  | cons x bs =>
    obtain ⟨hcut1, hcutle⟩ := window_cut_facts gear cfg (x :: bs) hmin2 hmax1 (by simp)
    show chunkAllGo gear cfg (bs.length + 1) (x :: bs) processed = _
    have hunf : chunkAllGo gear cfg (bs.length + 1) (x :: bs) processed =
        ⟨(find_cutpoint gear
            ((x :: bs).take (Nat.min (x :: bs).length cfg.max_size)) cfg).1,
          (x :: bs).take (find_cutpoint gear
            ((x :: bs).take (Nat.min (x :: bs).length cfg.max_size)) cfg).2,
          processed,
          (find_cutpoint gear
            ((x :: bs).take (Nat.min (x :: bs).length cfg.max_size)) cfg).2⟩ ::
        chunkAllGo gear cfg bs.length
          ((x :: bs).drop (find_cutpoint gear
            ((x :: bs).take (Nat.min (x :: bs).length cfg.max_size)) cfg).2)
          (processed + (find_cutpoint gear
            ((x :: bs).take (Nat.min (x :: bs).length cfg.max_size)) cfg).2) := rfl
    rw [hunf]
    congr 1
    apply chunkAllGo_fuel gear cfg hmin2 hmax1
    · rw [List.length_drop]
      have hxb : (x :: bs).length = bs.length + 1 := by simp
      omega
    · exact le_refl _

/-- The blocking iterator over an error-free source produces exactly the
reference chunking of the bytes remaining in its buffer and in the source,
regardless of the read fragmentation. -/
theorem iterRun_eq (gear : Nat → Nat) (cfg : Config)
    (hmin2 : 2 ≤ cfg.min_size) (hminmax : cfg.min_size < cfg.max_size) :
    ∀ fuel (s : IterState) (rdr : Reader), ErrorFree rdr.script →
      (s.eof = true → rdr.pending = []) →
      s.buf.length ≤ cfg.max_size →
      2 * s.buf.length + 3 * rdr.pending.length + 3 * rdr.script.length + 2 ≤ fuel →
      iterRun gear cfg fuel s rdr =
        (chunkAllGo gear cfg (s.buf.length + rdr.pending.length)
          (s.buf ++ rdr.pending) s.processed).map Except.ok := by
  have hmax1 : 1 ≤ cfg.max_size := by omega
  intro fuel
  induction fuel with
  | zero =>
    intro s rdr _ _ _ hm
    omega
  | succ f ih =>
    intro s rdr hef hinv hbl hm
    obtain ⟨buf, processed, eof⟩ := s
    obtain ⟨p, scr⟩ := rdr
    have hinv2 : eof = true → p = [] := hinv
    have hbl2 : buf.length ≤ cfg.max_size := hbl
    have hm2 : 2 * buf.length + 3 * p.length + 3 * scr.length + 2 ≤ f + 1 := hm
    show iterRun gear cfg (f + 1) ⟨buf, processed, eof⟩ ⟨p, scr⟩ =
      (chunkAllGo gear cfg (buf.length + p.length) (buf ++ p) processed).map Except.ok
    cases eof with
    | true =>
      have hp : p = [] := hinv2 rfl
      subst hp
      cases buf with
      | nil => rfl
      | cons x bs =>
        have hrefill : refill cfg (refillFuel cfg ⟨[], scr⟩) (x :: bs) true ⟨[], scr⟩ =
            (true, x :: bs, true, ⟨[], scr⟩) :=
          refill_stop cfg _ (x :: bs) true ⟨[], scr⟩ (by simp)
        rw [iterRun_succ, iterNext_chunk gear cfg ⟨x :: bs, processed, true⟩ ⟨[], scr⟩
          (x :: bs) true ⟨[], scr⟩ (by simp) hrefill (by simp)]
        obtain ⟨hcut1, hcutle⟩ := window_cut_facts gear cfg (x :: bs) hmin2 hmax1 (by simp)
        set CUT := (find_cutpoint gear
          ((x :: bs).take (Nat.min (x :: bs).length cfg.max_size)) cfg).2 with hCUT
        have hminle : Nat.min (x :: bs).length cfg.max_size ≤ (x :: bs).length :=
          nat_min_le_left _ _
        have hxb : (x :: bs).length = bs.length + 1 := by simp
        have hih := ih ⟨(x :: bs).drop CUT, processed + CUT, true⟩ ⟨[], scr⟩ hef
          (fun _ => rfl)
          (by
            show ((x :: bs).drop CUT).length ≤ cfg.max_size
            rw [List.length_drop]
            omega)
          (by
            show 2 * ((x :: bs).drop CUT).length + 3 * ([] : List Nat).length +
              3 * scr.length + 2 ≤ f
            rw [List.length_drop]
            simp only [List.length_nil]
            omega)
        show Except.ok (⟨(find_cutpoint gear
            ((x :: bs).take (Nat.min (x :: bs).length cfg.max_size)) cfg).1,
            (x :: bs).take CUT, processed, CUT⟩ : Chunk) ::
          iterRun gear cfg f ⟨(x :: bs).drop CUT, processed + CUT, true⟩ ⟨[], scr⟩ = _
        rw [hih]
        simp only [List.append_nil, List.length_nil, Nat.add_zero]
        rw [chunk_step_eq gear cfg hmin2 hmax1 (x :: bs) processed (by simp)]
        rw [List.map_cons]
    | false =>
      have hfuel : scr.length + (cfg.max_size - buf.length) < refillFuel cfg ⟨p, scr⟩ := by
        show _ < scr.length + cfg.max_size + 1
        omega
      obtain ⟨scr2, hef2, hlen2, heq⟩ :=
        refill_ok cfg (refillFuel cfg ⟨p, scr⟩) buf ⟨p, scr⟩ hef hfuel
      have hlen2b : scr2.length ≤ scr.length := hlen2
      by_cases hpn : p.length < cfg.max_size - buf.length
      · -- the source is exhausted before the buffer fills: eof is reached
        have htake : p.take (cfg.max_size - buf.length) = p :=
          List.take_of_length_le (by omega)
        have hdropp : p.drop (cfg.max_size - buf.length) = [] :=
          List.drop_eq_nil_of_le (by omega)
        have hdec : decide (p.length < cfg.max_size - buf.length) = true := by
          simp only [decide_eq_true_eq]
          exact hpn
        rw [htake, hdropp, hdec] at heq
        by_cases hrest : buf ++ p = []
        · rw [iterRun_succ, iterNext_none_empty gear cfg ⟨buf, processed, false⟩ ⟨p, scr⟩
            true ⟨[], scr2⟩ (by simp) (by rw [heq, hrest])]
          obtain ⟨hb0, hp0⟩ := List.append_eq_nil.mp hrest
          subst hb0
          subst hp0
          rfl
        · rw [iterRun_succ, iterNext_chunk gear cfg ⟨buf, processed, false⟩ ⟨p, scr⟩
            (buf ++ p) true ⟨[], scr2⟩ (by simp) heq hrest]
          obtain ⟨hcut1, hcutle⟩ := window_cut_facts gear cfg (buf ++ p) hmin2 hmax1 hrest
          set CUT := (find_cutpoint gear
            ((buf ++ p).take (Nat.min (buf ++ p).length cfg.max_size)) cfg).2 with hCUT
          have hminle : Nat.min (buf ++ p).length cfg.max_size ≤ (buf ++ p).length :=
            nat_min_le_left _ _
          have hlenrest : (buf ++ p).length = buf.length + p.length := List.length_append _ _
          have hih := ih ⟨(buf ++ p).drop CUT, processed + CUT, true⟩ ⟨[], scr2⟩ hef2
            (fun _ => rfl)
            (by
              show ((buf ++ p).drop CUT).length ≤ cfg.max_size
              rw [List.length_drop]
              omega)
            (by
              show 2 * ((buf ++ p).drop CUT).length + 3 * ([] : List Nat).length +
                3 * scr2.length + 2 ≤ f
              rw [List.length_drop]
              simp only [List.length_nil]
              omega)
          show Except.ok (⟨(find_cutpoint gear
              ((buf ++ p).take (Nat.min (buf ++ p).length cfg.max_size)) cfg).1,
              (buf ++ p).take CUT, processed, CUT⟩ : Chunk) ::
            iterRun gear cfg f ⟨(buf ++ p).drop CUT, processed + CUT, true⟩ ⟨[], scr2⟩ = _
          rw [hih]
          simp only [List.append_nil, List.length_nil, Nat.add_zero]
          rw [show buf.length + p.length = (buf ++ p).length from hlenrest.symm]
          rw [chunk_step_eq gear cfg hmin2 hmax1 (buf ++ p) processed hrest]
          rw [List.map_cons]
      · -- the buffer fills to max_size
        have hneed : cfg.max_size - buf.length ≤ p.length := by omega
        have hdec : decide (p.length < cfg.max_size - buf.length) = false := by
          simp only [decide_eq_false_iff_not]
          omega
        rw [hdec] at heq
        set NEED := cfg.max_size - buf.length with hNEED
        set BUF1 := buf ++ p.take NEED with hBUF1
        have hb1len : BUF1.length = cfg.max_size := by
          rw [hBUF1, length_append_take buf p NEED hneed]
          omega
        have hb1ne : BUF1 ≠ [] := by
          intro hcon
          rw [hcon] at hb1len
          simp at hb1len
          omega
        rw [iterRun_succ, iterNext_chunk gear cfg ⟨buf, processed, false⟩ ⟨p, scr⟩
          BUF1 false ⟨p.drop NEED, scr2⟩ (by simp) heq hb1ne]
        -- the scanned window equals the window of the full remaining input
        have hrestlen : (buf ++ p).length = buf.length + p.length := List.length_append _ _
        have hrestne : buf ++ p ≠ [] := by
          intro hcon
          obtain ⟨hb0, hp0⟩ := List.append_eq_nil.mp hcon
          rw [hBUF1, hb0, hp0, List.take_nil, List.append_nil] at hb1len
          simp at hb1len
          omega
        have hWr : Nat.min (buf ++ p).length cfg.max_size = cfg.max_size :=
          nat_min_eq_right (by omega)
        have hWb : Nat.min BUF1.length cfg.max_size = cfg.max_size := by
          rw [hb1len]
          exact nat_min_eq_left (le_refl _)
        have hwindow : (buf ++ p).take (Nat.min (buf ++ p).length cfg.max_size) = BUF1 := by
          rw [hWr]
          have hmx : cfg.max_size = buf.length + (cfg.max_size - buf.length) := by omega
          conv_lhs => rw [hmx]
          rw [List.take_append, hBUF1, hNEED]
        have hwindowb : BUF1.take (Nat.min BUF1.length cfg.max_size) = BUF1 := by
          rw [hWb]
          exact List.take_of_length_le (by omega)
        rw [hwindowb]
        obtain ⟨hcut1, hcutle⟩ := window_cut_facts gear cfg BUF1 hmin2 hmax1 hb1ne
        rw [hwindowb] at hcutle hcut1
        set CUT := (find_cutpoint gear BUF1 cfg).2 with hCUT
        have hcutmax : CUT ≤ cfg.max_size := by
          rw [hb1len] at hcutle
          exact le_trans hcutle (nat_min_le_right _ _)
        have hcutb1 : CUT ≤ BUF1.length := by omega
        have hsplitrest : buf ++ p = BUF1 ++ p.drop NEED := by
          rw [hBUF1, List.append_assoc, List.take_append_drop]
        have hdropeq : (buf ++ p).drop CUT = BUF1.drop CUT ++ p.drop NEED := by
          rw [hsplitrest, List.drop_append_of_le_length hcutb1]
        have htdata : (buf ++ p).take CUT = BUF1.take CUT := by
          rw [hsplitrest, List.take_append_of_le_length hcutb1]
        have hih := ih ⟨BUF1.drop CUT, processed + CUT, false⟩ ⟨p.drop NEED, scr2⟩ hef2
          (fun h => nomatch h)
          (by
            show (BUF1.drop CUT).length ≤ cfg.max_size
            rw [List.length_drop]
            omega)
          (by
            show 2 * (BUF1.drop CUT).length + 3 * (p.drop NEED).length +
              3 * scr2.length + 2 ≤ f
            rw [List.length_drop, List.length_drop, hb1len]
            omega)
        show Except.ok (⟨(find_cutpoint gear BUF1 cfg).1, BUF1.take CUT, processed, CUT⟩ :
            Chunk) ::
          iterRun gear cfg f ⟨BUF1.drop CUT, processed + CUT, false⟩ ⟨p.drop NEED, scr2⟩ = _
        rw [hih]
        rw [show buf.length + p.length = (buf ++ p).length from hrestlen.symm]
        rw [chunk_step_eq gear cfg hmin2 hmax1 (buf ++ p) processed hrestne]
        rw [hwindow]
        rw [← hCUT, List.map_cons, htdata, hdropeq, List.length_append]

/-! One loop iteration of the stream driver, by case. -/

theorem pollBody_ended (gear : Nat → Nat) (cfg : Config) (pr sc fp : Nat)
    (p : List Nat) (scr : List AsyncStep) :
    pollBody gear cfg ⟨[], pr, true, sc, fp, p, scr⟩ =
      (PollRes.ended, ⟨[], pr, true, sc, fp, p, scr⟩) := by
  simp only [pollBody]
  rw [if_pos (And.intro trivial trivial)]

theorem pollBody_yield_cut (gear : Nat → Nat) (cfg : Config) (buf p : List Nat)
    (pr sc fp : Nat) (eof : Bool) (scr : List AsyncStep)
    (hne : ¬ (eof = true ∧ buf = []))
    (hguard : cfg.min_size ≤ buf.length ∨ (eof = true ∧ buf ≠ []))
    (hr2 : (find_cutpoint_inner gear (buf.take (Nat.min buf.length cfg.max_size)) sc fp
        cfg).2 < Nat.min buf.length cfg.max_size) :
    pollBody gear cfg ⟨buf, pr, eof, sc, fp, p, scr⟩ =
      (PollRes.yielded ⟨(find_cutpoint_inner gear
          (buf.take (Nat.min buf.length cfg.max_size)) sc fp cfg).1,
        buf.take (find_cutpoint_inner gear
          (buf.take (Nat.min buf.length cfg.max_size)) sc fp cfg).2,
        pr,
        (find_cutpoint_inner gear (buf.take (Nat.min buf.length cfg.max_size)) sc fp cfg).2⟩,
      ⟨buf.drop (find_cutpoint_inner gear
          (buf.take (Nat.min buf.length cfg.max_size)) sc fp cfg).2,
        pr + (find_cutpoint_inner gear
          (buf.take (Nat.min buf.length cfg.max_size)) sc fp cfg).2,
        eof, 0, 0, p, scr⟩) := by
  simp only [pollBody]
  rw [if_neg hne]
  split
  case _ c st1 heq =>
    rw [if_pos hguard, if_pos hr2] at heq
    rw [show c = (⟨(find_cutpoint_inner gear
        (buf.take (Nat.min buf.length cfg.max_size)) sc fp cfg).1,
      buf.take (find_cutpoint_inner gear
        (buf.take (Nat.min buf.length cfg.max_size)) sc fp cfg).2,
      pr,
      (find_cutpoint_inner gear (buf.take (Nat.min buf.length cfg.max_size)) sc fp
        cfg).2⟩ : Chunk) from by
        have := (Sum.inl.injEq _ _).mp heq.symm
        exact (Prod.mk.injEq _ _ _ _).mp this |>.1]
    rw [show st1 = (⟨buf.drop (find_cutpoint_inner gear
        (buf.take (Nat.min buf.length cfg.max_size)) sc fp cfg).2,
      pr + (find_cutpoint_inner gear
        (buf.take (Nat.min buf.length cfg.max_size)) sc fp cfg).2,
      eof, 0, 0, p, scr⟩ : StreamState) from by
        have := (Sum.inl.injEq _ _).mp heq.symm
        exact (Prod.mk.injEq _ _ _ _).mp this |>.2]
  case _ st1 heq =>
    rw [if_pos hguard, if_pos hr2] at heq
    cases heq

theorem pollBody_yield_max (gear : Nat → Nat) (cfg : Config) (buf p : List Nat)
    (pr sc fp : Nat) (eof : Bool) (scr : List AsyncStep)
    (hne : ¬ (eof = true ∧ buf = []))
    (hguard : cfg.min_size ≤ buf.length ∨ (eof = true ∧ buf ≠ []))
    (hr2n : ¬ (find_cutpoint_inner gear (buf.take (Nat.min buf.length cfg.max_size)) sc fp
        cfg).2 < Nat.min buf.length cfg.max_size)
    (hmax : cfg.max_size ≤ buf.length) :
    pollBody gear cfg ⟨buf, pr, eof, sc, fp, p, scr⟩ =
      (PollRes.yielded ⟨(find_cutpoint_inner gear
          (buf.take (Nat.min buf.length cfg.max_size)) sc fp cfg).1,
        buf.take cfg.max_size, pr, cfg.max_size⟩,
      ⟨buf.drop cfg.max_size, pr + cfg.max_size, eof, 0, 0, p, scr⟩) := by
  simp only [pollBody]
  rw [if_neg hne]
  split
  case _ c st1 heq =>
    rw [if_pos hguard, if_neg hr2n, if_pos hmax] at heq
    rw [show c = (⟨(find_cutpoint_inner gear
        (buf.take (Nat.min buf.length cfg.max_size)) sc fp cfg).1,
      buf.take cfg.max_size, pr, cfg.max_size⟩ : Chunk) from by
        have := (Sum.inl.injEq _ _).mp heq.symm
        exact (Prod.mk.injEq _ _ _ _).mp this |>.1]
    rw [show st1 = (⟨buf.drop cfg.max_size, pr + cfg.max_size, eof, 0, 0, p, scr⟩ :
        StreamState) from by
        have := (Sum.inl.injEq _ _).mp heq.symm
        exact (Prod.mk.injEq _ _ _ _).mp this |>.2]
  case _ st1 heq =>
    rw [if_pos hguard, if_neg hr2n, if_pos hmax] at heq
    cases heq

theorem pollBody_yield_flush (gear : Nat → Nat) (cfg : Config) (buf p : List Nat)
    (pr sc fp : Nat) (scr : List AsyncStep)
    (hne : buf ≠ [])
    (hr2n : ¬ (find_cutpoint_inner gear (buf.take (Nat.min buf.length cfg.max_size)) sc fp
        cfg).2 < Nat.min buf.length cfg.max_size)
    (hmaxn : ¬ cfg.max_size ≤ buf.length) :
    pollBody gear cfg ⟨buf, pr, true, sc, fp, p, scr⟩ =
      (PollRes.yielded ⟨(find_cutpoint_inner gear
          (buf.take (Nat.min buf.length cfg.max_size)) sc fp cfg).1,
        buf.take (Nat.min buf.length cfg.max_size), pr, Nat.min buf.length cfg.max_size⟩,
      ⟨buf.drop (Nat.min buf.length cfg.max_size),
        pr + Nat.min buf.length cfg.max_size, true, 0, 0, p, scr⟩) := by
  simp only [pollBody]
  rw [if_neg (fun h => hne h.2)]
  split
  case _ c st1 heq =>
    rw [if_pos (Or.inr (And.intro trivial hne)), if_neg hr2n, if_neg hmaxn,
      if_pos trivial] at heq
    rw [show c = (⟨(find_cutpoint_inner gear
        (buf.take (Nat.min buf.length cfg.max_size)) sc fp cfg).1,
      buf.take (Nat.min buf.length cfg.max_size), pr,
      Nat.min buf.length cfg.max_size⟩ : Chunk) from by
        have := (Sum.inl.injEq _ _).mp heq.symm
        exact (Prod.mk.injEq _ _ _ _).mp this |>.1]
    rw [show st1 = (⟨buf.drop (Nat.min buf.length cfg.max_size),
      pr + Nat.min buf.length cfg.max_size, true, 0, 0, p, scr⟩ :
        StreamState) from by
        have := (Sum.inl.injEq _ _).mp heq.symm
        exact (Prod.mk.injEq _ _ _ _).mp this |>.2]
  case _ st1 heq =>
    rw [if_pos (Or.inr (And.intro trivial hne)), if_neg hr2n, if_neg hmaxn,
      if_pos trivial] at heq
    cases heq

theorem pollBody_ckpt_fail (gear : Nat → Nat) (cfg : Config) (buf p : List Nat)
    (pr sc fp : Nat) (rest : List AsyncStep)
    (hmin : cfg.min_size ≤ buf.length)
    (hr2n : ¬ (find_cutpoint_inner gear (buf.take (Nat.min buf.length cfg.max_size)) sc fp
        cfg).2 < Nat.min buf.length cfg.max_size)
    (hmaxn : ¬ cfg.max_size ≤ buf.length) :
    pollBody gear cfg ⟨buf, pr, false, sc, fp, p, AsyncStep.failRead :: rest⟩ =
      (PollRes.erred, ⟨buf, pr, false,
        Nat.max (Nat.min buf.length cfg.max_size / 2 * 2) cfg.min_size,
        (find_cutpoint_inner gear (buf.take (Nat.min buf.length cfg.max_size)) sc fp cfg).1,
        p, rest⟩) := by
  simp only [pollBody]
  rw [if_neg (by simp)]
  split
  case _ c st1 heq =>
    rw [if_pos (Or.inl hmin), if_neg hr2n, if_neg hmaxn, if_neg (by simp)] at heq
    simp at heq
  case _ st1 heq =>
    rw [if_pos (Or.inl hmin), if_neg hr2n, if_neg hmaxn, if_neg (by simp)] at heq
    have h1 := (Sum.inr.injEq _ _).mp heq
    subst h1
    rw [if_pos (And.intro (show buf.length < cfg.max_size from by omega) rfl)]

theorem pollBody_ckpt_notReady (gear : Nat → Nat) (cfg : Config) (buf p : List Nat)
    (pr sc fp : Nat) (rest : List AsyncStep)
    (hmin : cfg.min_size ≤ buf.length)
    (hr2n : ¬ (find_cutpoint_inner gear (buf.take (Nat.min buf.length cfg.max_size)) sc fp
        cfg).2 < Nat.min buf.length cfg.max_size)
    (hmaxn : ¬ cfg.max_size ≤ buf.length) :
    pollBody gear cfg ⟨buf, pr, false, sc, fp, p, AsyncStep.notReady :: rest⟩ =
      (PollRes.notReady, ⟨buf, pr, false,
        Nat.max (Nat.min buf.length cfg.max_size / 2 * 2) cfg.min_size,
        (find_cutpoint_inner gear (buf.take (Nat.min buf.length cfg.max_size)) sc fp cfg).1,
        p, rest⟩) := by
  simp only [pollBody]
  rw [if_neg (by simp)]
  split
  case _ c st1 heq =>
    rw [if_pos (Or.inl hmin), if_neg hr2n, if_neg hmaxn, if_neg (by simp)] at heq
    simp at heq
  case _ st1 heq =>
    rw [if_pos (Or.inl hmin), if_neg hr2n, if_neg hmaxn, if_neg (by simp)] at heq
    have h1 := (Sum.inr.injEq _ _).mp heq
    subst h1
    rw [if_pos (And.intro (show buf.length < cfg.max_size from by omega) rfl)]

theorem pollBody_ckpt_deliver (gear : Nat → Nat) (cfg : Config) (buf p : List Nat)
    (pr sc fp k : Nat) (rest : List AsyncStep)
    (hmin : cfg.min_size ≤ buf.length)
    (hr2n : ¬ (find_cutpoint_inner gear (buf.take (Nat.min buf.length cfg.max_size)) sc fp
        cfg).2 < Nat.min buf.length cfg.max_size)
    (hmaxn : ¬ cfg.max_size ≤ buf.length) :
    pollBody gear cfg ⟨buf, pr, false, sc, fp, p, AsyncStep.deliver k :: rest⟩ =
      (if Nat.min (Nat.min k (cfg.max_size - buf.length)) p.length = 0 then
        (PollRes.again, ⟨buf, pr, true,
          Nat.max (Nat.min buf.length cfg.max_size / 2 * 2) cfg.min_size,
          (find_cutpoint_inner gear (buf.take (Nat.min buf.length cfg.max_size)) sc fp
            cfg).1, p, rest⟩)
      else
        (PollRes.again,
          ⟨buf ++ p.take (Nat.min (Nat.min k (cfg.max_size - buf.length)) p.length),
            pr, false,
            Nat.max (Nat.min buf.length cfg.max_size / 2 * 2) cfg.min_size,
            (find_cutpoint_inner gear (buf.take (Nat.min buf.length cfg.max_size)) sc fp
              cfg).1,
            p.drop (Nat.min (Nat.min k (cfg.max_size - buf.length)) p.length), rest⟩)) := by
  simp only [pollBody]
  rw [if_neg (by simp)]
  split
  case _ c st1 heq =>
    rw [if_pos (Or.inl hmin), if_neg hr2n, if_neg hmaxn, if_neg (by simp)] at heq
    simp at heq
  case _ st1 heq =>
    rw [if_pos (Or.inl hmin), if_neg hr2n, if_neg hmaxn, if_neg (by simp)] at heq
    have h1 := (Sum.inr.injEq _ _).mp heq
    subst h1
    rw [if_pos (And.intro (show buf.length < cfg.max_size from by omega) rfl)]

theorem pollBody_ckpt_greedy (gear : Nat → Nat) (cfg : Config) (buf p : List Nat)
    (pr sc fp : Nat)
    (hmin : cfg.min_size ≤ buf.length)
    (hr2n : ¬ (find_cutpoint_inner gear (buf.take (Nat.min buf.length cfg.max_size)) sc fp
        cfg).2 < Nat.min buf.length cfg.max_size)
    (hmaxn : ¬ cfg.max_size ≤ buf.length) :
    pollBody gear cfg ⟨buf, pr, false, sc, fp, p, []⟩ =
      (if Nat.min (cfg.max_size - buf.length) p.length = 0 then
        (PollRes.again, ⟨buf, pr, true,
          Nat.max (Nat.min buf.length cfg.max_size / 2 * 2) cfg.min_size,
          (find_cutpoint_inner gear (buf.take (Nat.min buf.length cfg.max_size)) sc fp
            cfg).1, p, []⟩)
      else
        (PollRes.again,
          ⟨buf ++ p.take (Nat.min (cfg.max_size - buf.length) p.length),
            pr, false,
            Nat.max (Nat.min buf.length cfg.max_size / 2 * 2) cfg.min_size,
            (find_cutpoint_inner gear (buf.take (Nat.min buf.length cfg.max_size)) sc fp
              cfg).1,
            p.drop (Nat.min (cfg.max_size - buf.length) p.length), []⟩)) := by
  simp only [pollBody]
  rw [if_neg (by simp)]
  split
  case _ c st1 heq =>
    rw [if_pos (Or.inl hmin), if_neg hr2n, if_neg hmaxn, if_neg (by simp)] at heq
    simp at heq
  case _ st1 heq =>
    rw [if_pos (Or.inl hmin), if_neg hr2n, if_neg hmaxn, if_neg (by simp)] at heq
    have h1 := (Sum.inr.injEq _ _).mp heq
    subst h1
    rw [if_pos (And.intro (show buf.length < cfg.max_size from by omega) rfl)]

theorem pollBody_noscan_fail (gear : Nat → Nat) (cfg : Config) (buf p : List Nat)
    (pr sc fp : Nat) (rest : List AsyncStep)
    (hminn : buf.length < cfg.min_size) (hmaxlt : buf.length < cfg.max_size) :
    pollBody gear cfg ⟨buf, pr, false, sc, fp, p, AsyncStep.failRead :: rest⟩ =
      (PollRes.erred, ⟨buf, pr, false, sc, fp, p, rest⟩) := by
  simp only [pollBody]
  rw [if_neg (by simp)]
  split
  case _ c st1 heq =>
    rw [if_neg (by
      intro hor
      rcases hor with h | h
      · omega
      · simp at h)] at heq
    simp at heq
  case _ st1 heq =>
    rw [if_neg (by
      intro hor
      rcases hor with h | h
      · omega
      · simp at h)] at heq
    have h1 := (Sum.inr.injEq _ _).mp heq
    subst h1
    rw [if_pos (And.intro hmaxlt rfl)]

theorem pollBody_noscan_notReady (gear : Nat → Nat) (cfg : Config) (buf p : List Nat)
    (pr sc fp : Nat) (rest : List AsyncStep)
    (hminn : buf.length < cfg.min_size) (hmaxlt : buf.length < cfg.max_size) :
    pollBody gear cfg ⟨buf, pr, false, sc, fp, p, AsyncStep.notReady :: rest⟩ =
      (PollRes.notReady, ⟨buf, pr, false, sc, fp, p, rest⟩) := by
  simp only [pollBody]
  rw [if_neg (by simp)]
  split
  case _ c st1 heq =>
    rw [if_neg (by
      intro hor
      rcases hor with h | h
      · omega
      · simp at h)] at heq
    simp at heq
  case _ st1 heq =>
    rw [if_neg (by
      intro hor
      rcases hor with h | h
      · omega
      · simp at h)] at heq
    have h1 := (Sum.inr.injEq _ _).mp heq
    subst h1
    rw [if_pos (And.intro hmaxlt rfl)]

theorem pollBody_noscan_deliver (gear : Nat → Nat) (cfg : Config) (buf p : List Nat)
    (pr sc fp k : Nat) (rest : List AsyncStep)
    (hminn : buf.length < cfg.min_size) (hmaxlt : buf.length < cfg.max_size) :
    pollBody gear cfg ⟨buf, pr, false, sc, fp, p, AsyncStep.deliver k :: rest⟩ =
      (if Nat.min (Nat.min k (cfg.max_size - buf.length)) p.length = 0 then
        (PollRes.again, ⟨buf, pr, true, sc, fp, p, rest⟩)
      else
        (PollRes.again,
          ⟨buf ++ p.take (Nat.min (Nat.min k (cfg.max_size - buf.length)) p.length),
            pr, false, sc, fp,
            p.drop (Nat.min (Nat.min k (cfg.max_size - buf.length)) p.length), rest⟩)) := by
  simp only [pollBody]
  rw [if_neg (by simp)]
  split
  case _ c st1 heq =>
    rw [if_neg (by
      intro hor
      rcases hor with h | h
      · omega
      · simp at h)] at heq
    simp at heq
  case _ st1 heq =>
    rw [if_neg (by
      intro hor
      rcases hor with h | h
      · omega
      · simp at h)] at heq
    have h1 := (Sum.inr.injEq _ _).mp heq
    subst h1
    rw [if_pos (And.intro hmaxlt rfl)]

theorem pollBody_noscan_greedy (gear : Nat → Nat) (cfg : Config) (buf p : List Nat)
    (pr sc fp : Nat)
    (hminn : buf.length < cfg.min_size) (hmaxlt : buf.length < cfg.max_size) :
    pollBody gear cfg ⟨buf, pr, false, sc, fp, p, []⟩ =
      (if Nat.min (cfg.max_size - buf.length) p.length = 0 then
        (PollRes.again, ⟨buf, pr, true, sc, fp, p, []⟩)
      else
        (PollRes.again,
          ⟨buf ++ p.take (Nat.min (cfg.max_size - buf.length) p.length),
            pr, false, sc, fp,
            p.drop (Nat.min (cfg.max_size - buf.length) p.length), []⟩)) := by
  simp only [pollBody]
  rw [if_neg (by simp)]
  split
  case _ c st1 heq =>
    rw [if_neg (by
      intro hor
      rcases hor with h | h
      · omega
      · simp at h)] at heq
    simp at heq
  case _ st1 heq =>
    rw [if_neg (by
      intro hor
      rcases hor with h | h
      · omega
      · simp at h)] at heq
    have h1 := (Sum.inr.injEq _ _).mp heq
    subst h1
    rw [if_pos (And.intro hmaxlt rfl)]

theorem streamRun_succ (gear : Nat → Nat) (cfg : Config) (fuel : Nat) (st : StreamState) :
    streamRun gear cfg (fuel + 1) st =
      match pollBody gear cfg st with
      | (PollRes.ended, _) => []
      | (PollRes.yielded c, st1) => Except.ok c :: streamRun gear cfg fuel st1
      | (PollRes.erred, st1) => Except.error () :: streamRun gear cfg fuel st1
      | (PollRes.notReady, st1) => streamRun gear cfg fuel st1
      | (PollRes.again, st1) => streamRun gear cfg fuel st1 := rfl

/-- The saved (scanned, fp_hash) checkpoint makes the resumed scan agree with a
fresh scan of the whole window. -/
theorem checkpoint_scan_eq (gear : Nat → Nat) (cfg : Config) (buf : List Nat) (sc fp : Nat)
    (hmin1 : 1 ≤ cfg.min_size)
    (hcp : (sc = 0 ∧ fp = 0) ∨ ∃ Lp, cfg.min_size ≤ Lp ∧ Lp ≤ buf.length ∧
      Lp < cfg.max_size ∧ find_cutpoint gear (buf.take Lp) cfg = (fp, Lp) ∧
      sc = Nat.max (Lp / 2 * 2) cfg.min_size) :
    find_cutpoint_inner gear (buf.take (Nat.min buf.length cfg.max_size)) sc fp cfg =
      find_cutpoint gear (buf.take (Nat.min buf.length cfg.max_size)) cfg := by
  rcases hcp with ⟨hsc, hfp⟩ | ⟨Lp, hminLp, hLpb, hLpmax, hck, hsc⟩
  · subst hsc
    subst hfp
    exact (find_cutpoint_def gear _ cfg).symm
  · subst hsc
    have hLpSL : Lp ≤ Nat.min buf.length cfg.max_size := nat_le_min hLpb (le_of_lt hLpmax)
    have hTlen : (buf.take (Nat.min buf.length cfg.max_size)).length =
        Nat.min buf.length cfg.max_size := take_length_of_le (nat_min_le_left _ _)
    refine resume_scan gear cfg _ Lp fp hmin1 ?_ hminLp hLpmax ?_
    · rw [hTlen]
      exact hLpSL
    · rw [List.take_take, min_eq_left hLpSL]
      exact hck

/-- A valid checkpoint for buf stays valid after more bytes are appended. -/
theorem checkpoint_grow (gear : Nat → Nat) (cfg : Config) (buf tk : List Nat) (sc fp : Nat)
    (hcp : (sc = 0 ∧ fp = 0) ∨ ∃ Lp, cfg.min_size ≤ Lp ∧ Lp ≤ buf.length ∧
      Lp < cfg.max_size ∧ find_cutpoint gear (buf.take Lp) cfg = (fp, Lp) ∧
      sc = Nat.max (Lp / 2 * 2) cfg.min_size) :
    (sc = 0 ∧ fp = 0) ∨ ∃ Lp, cfg.min_size ≤ Lp ∧ Lp ≤ (buf ++ tk).length ∧
      Lp < cfg.max_size ∧ find_cutpoint gear ((buf ++ tk).take Lp) cfg = (fp, Lp) ∧
      sc = Nat.max (Lp / 2 * 2) cfg.min_size := by
  rcases hcp with h | ⟨Lp, h1, h2, h3, h4, h5⟩
  · exact Or.inl h
  · refine Or.inr ⟨Lp, h1, by rw [List.length_append]; omega, h3, ?_, h5⟩
    rw [List.take_append_of_le_length h2]
    exact h4

/-- A freshly stored checkpoint (set when a full-window scan found no cut
before the end of a sub-maximum window) is a valid checkpoint for the buffer. -/
theorem checkpoint_set (gear : Nat → Nat) (cfg : Config) (buf : List Nat) (fp : Nat)
    (hminb : cfg.min_size ≤ buf.length) (hmaxlt : buf.length < cfg.max_size)
    (hfull : find_cutpoint gear (buf.take (Nat.min buf.length cfg.max_size)) cfg =
      (fp, Nat.min buf.length cfg.max_size)) :
    (Nat.max (Nat.min buf.length cfg.max_size / 2 * 2) cfg.min_size = 0 ∧ fp = 0) ∨
      ∃ Lp, cfg.min_size ≤ Lp ∧ Lp ≤ buf.length ∧ Lp < cfg.max_size ∧
        find_cutpoint gear (buf.take Lp) cfg = (fp, Lp) ∧
        Nat.max (Nat.min buf.length cfg.max_size / 2 * 2) cfg.min_size =
          Nat.max (Lp / 2 * 2) cfg.min_size := by
  refine Or.inr ⟨buf.length, hminb, le_refl _, hmaxlt, ?_,
    by rw [nat_min_eq_left (le_of_lt hmaxlt)]⟩
  rw [List.take_length]
  rw [nat_min_eq_left (le_of_lt hmaxlt), List.take_length] at hfull
  exact hfull

theorem streamRun_eq (gear : Nat → Nat) (cfg : Config)
    (hmin2 : 2 ≤ cfg.min_size) (hminmax : cfg.min_size < cfg.max_size) :
    ∀ fuel (buf p : List Nat) (pr sc fp : Nat) (eof : Bool) (scr : List AsyncStep),
      AErrorFree scr →
      (eof = true → p = []) →
      buf.length ≤ cfg.max_size →
      ((sc = 0 ∧ fp = 0) ∨ ∃ Lp, cfg.min_size ≤ Lp ∧ Lp ≤ buf.length ∧
        Lp < cfg.max_size ∧ find_cutpoint gear (buf.take Lp) cfg = (fp, Lp) ∧
        sc = Nat.max (Lp / 2 * 2) cfg.min_size) →
      2 * buf.length + 3 * p.length + 3 * scr.length +
        (if eof = true then 0 else 1) + 1 ≤ fuel →
      streamRun gear cfg fuel ⟨buf, pr, eof, sc, fp, p, scr⟩ =
        (chunkAllGo gear cfg (buf.length + p.length) (buf ++ p) pr).map Except.ok := by
  have hmax1 : 1 ≤ cfg.max_size := by omega
  have hmin1 : 1 ≤ cfg.min_size := by omega
  intro fuel
  induction fuel with
  | zero =>
    intro buf p pr sc fp eof scr _ _ _ _ hm
    omega
  | succ f ih =>
    intro buf p pr sc fp eof scr hef hpe hbl hcp hm
    by_cases h0 : eof = true ∧ buf = []
    · obtain ⟨he, hb⟩ := h0
      subst hb
      subst he
      have hp : p = [] := hpe rfl
      subst hp
      rw [streamRun_succ, pollBody_ended]
      show ([] : List (Except Unit Chunk)) = _
      simp [chunkAllGo_nil]
    · by_cases hguard : cfg.min_size ≤ buf.length ∨ (eof = true ∧ buf ≠ [])
      · -- the scan branch runs
        have hbufne : buf ≠ [] := by
          rcases hguard with h | h
          · intro hc
            rw [hc] at h
            simp at h
            omega
          · exact h.2
        have hscan := checkpoint_scan_eq gear cfg buf sc fp hmin1 hcp
        have hSLle : Nat.min buf.length cfg.max_size ≤ buf.length := nat_min_le_left _ _
        have hSLmax : Nat.min buf.length cfg.max_size ≤ cfg.max_size := nat_min_le_right _ _
        have hWlen : (buf.take (Nat.min buf.length cfg.max_size)).length =
            Nat.min buf.length cfg.max_size := take_length_of_le hSLle
        have hblen1 : 1 ≤ buf.length := List.length_pos.mpr hbufne
        have hSL1 : 1 ≤ Nat.min buf.length cfg.max_size := nat_le_min hblen1 hmax1
        have hWne : buf.take (Nat.min buf.length cfg.max_size) ≠ [] :=
          take_ne_nil_of_pos hSL1 hbufne
        have hRle : (find_cutpoint gear (buf.take (Nat.min buf.length cfg.max_size)) cfg).2 ≤
            Nat.min buf.length cfg.max_size := by
          rw [find_cutpoint_def]
          have h1 := inner_cut_le gear (buf.take (Nat.min buf.length cfg.max_size)) 0 0 cfg
          rw [hWlen, nat_min_eq_left hSLmax] at h1
          exact h1
        have hR1 : 1 ≤ (find_cutpoint gear (buf.take (Nat.min buf.length cfg.max_size)) cfg).2 := by
          rw [find_cutpoint_def]
          exact inner_cut_pos gear _ 0 0 cfg hmin2 hmax1 hWne
        have hrlen : (buf ++ p).length = buf.length + p.length := List.length_append _ _
        have hrne : buf ++ p ≠ [] := fun hc => hbufne (List.append_eq_nil.mp hc).1
        by_cases hcutlt : (find_cutpoint gear (buf.take (Nat.min buf.length cfg.max_size)) cfg).2 <
            Nat.min buf.length cfg.max_size
        · -- case A: cut strictly inside the current window
          rw [streamRun_succ, pollBody_yield_cut gear cfg buf p pr sc fp eof scr h0 hguard
            (by rw [hscan]; exact hcutlt)]
          rw [hscan]
          show Except.ok (⟨(find_cutpoint gear
              (buf.take (Nat.min buf.length cfg.max_size)) cfg).1,
              buf.take (find_cutpoint gear (buf.take (Nat.min buf.length cfg.max_size)) cfg).2,
              pr, (find_cutpoint gear (buf.take (Nat.min buf.length cfg.max_size)) cfg).2⟩ :
                Chunk) ::
            streamRun gear cfg f ⟨buf.drop (find_cutpoint gear
              (buf.take (Nat.min buf.length cfg.max_size)) cfg).2,
              pr + (find_cutpoint gear (buf.take (Nat.min buf.length cfg.max_size)) cfg).2,
              eof, 0, 0, p, scr⟩ = _
          set CUT := (find_cutpoint gear (buf.take (Nat.min buf.length cfg.max_size)) cfg).2
            with hCUT
          have hCUTb : CUT ≤ buf.length := le_of_lt (lt_of_lt_of_le hcutlt hSLle)
          rw [show buf.length + p.length = (buf ++ p).length from hrlen.symm]
          rw [chunk_step_eq gear cfg hmin2 hmax1 (buf ++ p) pr hrne]
          have hSLrle : Nat.min buf.length cfg.max_size ≤
              Nat.min (buf ++ p).length cfg.max_size := by
            refine nat_le_min ?_ hSLmax
            rw [hrlen]
            omega
          have hwtake : ((buf ++ p).take (Nat.min (buf ++ p).length cfg.max_size)).take
              (Nat.min buf.length cfg.max_size) = buf.take (Nat.min buf.length cfg.max_size) := by
            rw [List.take_take, min_eq_left hSLrle, List.take_append_of_le_length hSLle]
          have hrwin : find_cutpoint gear
              ((buf ++ p).take (Nat.min (buf ++ p).length cfg.max_size)) cfg =
              find_cutpoint gear (buf.take (Nat.min buf.length cfg.max_size)) cfg := by
            have hx := cut_extend gear cfg
              ((buf ++ p).take (Nat.min (buf ++ p).length cfg.max_size))
              (Nat.min buf.length cfg.max_size) hmin1
              (by
                rw [take_length_of_le (nat_min_le_left _ _)]
                exact hSLrle)
              (by
                rw [hwtake, nat_min_eq_left hSLmax]
                exact hcutlt)
            rw [hx, hwtake]
          rw [hrwin, ← hCUT]
          rw [List.take_append_of_le_length hCUTb]
          have hdrop : (buf ++ p).drop CUT = buf.drop CUT ++ p :=
            List.drop_append_of_le_length hCUTb
          have hih := ih (buf.drop CUT) p (pr + CUT) 0 0 eof scr hef hpe
            (by rw [List.length_drop]; omega)
            (Or.inl ⟨rfl, rfl⟩)
            (by rw [List.length_drop]; omega)
          rw [hih, hdrop, List.length_append, List.map_cons]
        · by_cases hmaxle : cfg.max_size ≤ buf.length
          · -- case B: buffer at or above max_size forces a cut at max_size
            rw [streamRun_succ, pollBody_yield_max gear cfg buf p pr sc fp eof scr h0 hguard
              (by rw [hscan]; exact hcutlt) hmaxle]
            rw [hscan]
            show Except.ok (⟨(find_cutpoint gear
                (buf.take (Nat.min buf.length cfg.max_size)) cfg).1,
                buf.take cfg.max_size, pr, cfg.max_size⟩ : Chunk) ::
              streamRun gear cfg f ⟨buf.drop cfg.max_size, pr + cfg.max_size,
                eof, 0, 0, p, scr⟩ = _
            have hSLeq : Nat.min buf.length cfg.max_size = cfg.max_size :=
              nat_min_eq_right hmaxle
            have hR2 : (find_cutpoint gear (buf.take (Nat.min buf.length cfg.max_size)) cfg).2 =
                cfg.max_size := by omega
            rw [show buf.length + p.length = (buf ++ p).length from hrlen.symm]
            rw [chunk_step_eq gear cfg hmin2 hmax1 (buf ++ p) pr hrne]
            have hmaxr : cfg.max_size ≤ (buf ++ p).length := by rw [hrlen]; omega
            have hwin : (buf ++ p).take (Nat.min (buf ++ p).length cfg.max_size) =
                buf.take (Nat.min buf.length cfg.max_size) := by
              rw [nat_min_eq_right hmaxr, hSLeq, List.take_append_of_le_length hmaxle]
            rw [hwin, hR2]
            rw [List.take_append_of_le_length hmaxle]
            have hdrop : (buf ++ p).drop cfg.max_size = buf.drop cfg.max_size ++ p :=
              List.drop_append_of_le_length hmaxle
            have hih := ih (buf.drop cfg.max_size) p (pr + cfg.max_size) 0 0 eof scr hef hpe
              (by rw [List.length_drop]; omega)
              (Or.inl ⟨rfl, rfl⟩)
              (by rw [List.length_drop]; omega)
            rw [hih, hdrop, List.length_append, List.map_cons]
          · by_cases hev : eof = true
            · -- case C: EOF flush of the final sub-maximum chunk
              subst hev
              have hp : p = [] := hpe rfl
              subst hp
              rw [streamRun_succ, pollBody_yield_flush gear cfg buf [] pr sc fp scr hbufne
                (by rw [hscan]; exact hcutlt) hmaxle]
              rw [hscan]
              show Except.ok (⟨(find_cutpoint gear
                  (buf.take (Nat.min buf.length cfg.max_size)) cfg).1,
                  buf.take (Nat.min buf.length cfg.max_size), pr,
                  Nat.min buf.length cfg.max_size⟩ : Chunk) ::
                streamRun gear cfg f ⟨buf.drop (Nat.min buf.length cfg.max_size),
                  pr + Nat.min buf.length cfg.max_size, true, 0, 0, [], scr⟩ = _
              have hSLeq : Nat.min buf.length cfg.max_size = buf.length :=
                nat_min_eq_left (by omega)
              have hR2 : (find_cutpoint gear
                  (buf.take (Nat.min buf.length cfg.max_size)) cfg).2 =
                  Nat.min buf.length cfg.max_size := by omega
              have hdropnil : buf.drop (Nat.min buf.length cfg.max_size) = [] := by
                rw [hSLeq]
                exact List.drop_length buf
              have hih := ih [] [] (pr + Nat.min buf.length cfg.max_size) 0 0 true scr hef
                (fun _ => rfl) (by simp) (Or.inl ⟨rfl, rfl⟩)
                (by
                  show 2 * ([] : List Nat).length + 3 * ([] : List Nat).length +
                    3 * scr.length + 0 + 1 ≤ f
                  simp only [List.length_nil]
                  omega)
              rw [hdropnil, hih]
              simp only [List.append_nil, List.length_nil, Nat.add_zero]
              rw [chunk_step_eq gear cfg hmin2 hmax1 buf pr hbufne]
              rw [hR2, List.map_cons, hdropnil]
              rw [chunkAllGo_nil]
              rfl
            · -- no cut yet and below max_size: save checkpoint, then read more
              have heF : eof = false := by
                cases eof
                · rfl
                · exact absurd rfl hev
              subst heF
              have hm2 : 2 * buf.length + 3 * p.length + 3 * scr.length + 1 + 1 ≤ f + 1 := hm
              have hminb : cfg.min_size ≤ buf.length := by
                rcases hguard with h | h
                · exact h
                · exact absurd h.1 (by simp)
              have hR2 : (find_cutpoint gear
                  (buf.take (Nat.min buf.length cfg.max_size)) cfg).2 =
                  Nat.min buf.length cfg.max_size := by omega
              have hfull : find_cutpoint gear
                  (buf.take (Nat.min buf.length cfg.max_size)) cfg =
                  ((find_cutpoint gear (buf.take (Nat.min buf.length cfg.max_size)) cfg).1,
                    Nat.min buf.length cfg.max_size) := Prod.ext rfl hR2
              have hcpnew := checkpoint_set gear cfg buf
                (find_cutpoint gear (buf.take (Nat.min buf.length cfg.max_size)) cfg).1
                hminb (by omega) hfull
              cases scr with
              | nil =>
                rw [streamRun_succ, pollBody_ckpt_greedy gear cfg buf p pr sc fp hminb
                  (by rw [hscan]; exact hcutlt) hmaxle]
                rw [hscan]
                have hscl : ([] : List AsyncStep).length = 0 := rfl
                by_cases hm0 : Nat.min (cfg.max_size - buf.length) p.length = 0
                · rw [if_pos hm0]
                  have hp0 : p = [] := by
                    rcases (nat_min_zero_iff _ _).mp hm0 with h | h
                    · omega
                    · exact List.length_eq_zero.mp h
                  subst hp0
                  have hpl0 : ([] : List Nat).length = 0 := rfl
                  exact ih buf [] pr
                    (Nat.max (Nat.min buf.length cfg.max_size / 2 * 2) cfg.min_size)
                    (find_cutpoint gear (buf.take (Nat.min buf.length cfg.max_size)) cfg).1
                    true [] rfl (fun _ => rfl) hbl hcpnew
                    (by
                      show 2 * buf.length + 3 * ([] : List Nat).length +
                        3 * ([] : List AsyncStep).length + 0 + 1 ≤ f
                      omega)
                · rw [if_neg hm0]
                  have hMp : Nat.min (cfg.max_size - buf.length) p.length ≤ p.length :=
                    nat_min_le_right _ _
                  have hMsp : Nat.min (cfg.max_size - buf.length) p.length ≤
                      cfg.max_size - buf.length := nat_min_le_left _ _
                  have htklen : (p.take (Nat.min (cfg.max_size - buf.length) p.length)).length =
                      Nat.min (cfg.max_size - buf.length) p.length := by
                    rw [List.length_take, min_eq_left hMp]
                  have hih := ih
                    (buf ++ p.take (Nat.min (cfg.max_size - buf.length) p.length))
                    (p.drop (Nat.min (cfg.max_size - buf.length) p.length)) pr
                    (Nat.max (Nat.min buf.length cfg.max_size / 2 * 2) cfg.min_size)
                    (find_cutpoint gear (buf.take (Nat.min buf.length cfg.max_size)) cfg).1
                    false [] rfl (by intro h; simp at h)
                    (by rw [List.length_append, htklen]; omega)
                    (checkpoint_grow gear cfg buf _ _ _ hcpnew)
                    (by
                      show 2 * (buf ++ p.take (Nat.min (cfg.max_size - buf.length)
                        p.length)).length +
                        3 * (p.drop (Nat.min (cfg.max_size - buf.length) p.length)).length +
                        3 * ([] : List AsyncStep).length + 1 + 1 ≤ f
                      rw [List.length_append, htklen, List.length_drop]
                      omega)
                  refine hih.trans ?_
                  rw [List.append_assoc, List.take_append_drop]
                  rw [show (buf ++ p.take (Nat.min (cfg.max_size - buf.length)
                      p.length)).length +
                      (p.drop (Nat.min (cfg.max_size - buf.length) p.length)).length =
                      buf.length + p.length from by
                    rw [List.length_append, htklen, List.length_drop]
                    omega]
              | cons a rest' =>
                cases a with
                | failRead =>
                  exfalso
                  have h2 : (false && rest'.all astepOk) = true := hef
                  simp at h2
                | notReady =>
                  rw [streamRun_succ, pollBody_ckpt_notReady gear cfg buf p pr sc fp rest'
                    hminb (by rw [hscan]; exact hcutlt) hmaxle]
                  rw [hscan]
                  have heft : AErrorFree rest' := by
                    have h2 : (true && rest'.all astepOk) = true := hef
                    rwa [Bool.true_and] at h2
                  have hscl : (AsyncStep.notReady :: rest').length = rest'.length + 1 := rfl
                  exact ih buf p pr
                    (Nat.max (Nat.min buf.length cfg.max_size / 2 * 2) cfg.min_size)
                    (find_cutpoint gear (buf.take (Nat.min buf.length cfg.max_size)) cfg).1
                    false rest' heft hpe hbl hcpnew
                    (by
                      show 2 * buf.length + 3 * p.length + 3 * rest'.length + 1 + 1 ≤ f
                      omega)
                | deliver k =>
                  rw [streamRun_succ, pollBody_ckpt_deliver gear cfg buf p pr sc fp k rest'
                    hminb (by rw [hscan]; exact hcutlt) hmaxle]
                  rw [hscan]
                  have hk : 1 ≤ k ∧ AErrorFree rest' := by
                    have h2 : (decide (1 ≤ k) && rest'.all astepOk) = true := hef
                    have h3 := Bool.and_eq_true_iff.mp h2
                    exact ⟨of_decide_eq_true h3.1, h3.2⟩
                  have hscl : (AsyncStep.deliver k :: rest').length = rest'.length + 1 := rfl
                  by_cases hm0 : Nat.min (Nat.min k (cfg.max_size - buf.length)) p.length = 0
                  · rw [if_pos hm0]
                    have hksp : 1 ≤ Nat.min k (cfg.max_size - buf.length) :=
                      nat_le_min hk.1 (by omega)
                    have hp0 : p = [] := by
                      rcases (nat_min_zero_iff _ _).mp hm0 with h | h
                      · omega
                      · exact List.length_eq_zero.mp h
                    subst hp0
                    have hpl0 : ([] : List Nat).length = 0 := rfl
                    exact ih buf [] pr
                      (Nat.max (Nat.min buf.length cfg.max_size / 2 * 2) cfg.min_size)
                      (find_cutpoint gear (buf.take (Nat.min buf.length cfg.max_size)) cfg).1
                      true rest' hk.2 (fun _ => rfl) hbl hcpnew
                      (by
                        show 2 * buf.length + 3 * ([] : List Nat).length +
                          3 * rest'.length + 0 + 1 ≤ f
                        omega)
                  · rw [if_neg hm0]
                    have hMp : Nat.min (Nat.min k (cfg.max_size - buf.length)) p.length ≤
                        p.length := nat_min_le_right _ _
                    have hMsp : Nat.min (Nat.min k (cfg.max_size - buf.length)) p.length ≤
                        Nat.min k (cfg.max_size - buf.length) := nat_min_le_left _ _
                    have hsp : Nat.min k (cfg.max_size - buf.length) ≤
                        cfg.max_size - buf.length := nat_min_le_right _ _
                    have htklen : (p.take (Nat.min (Nat.min k (cfg.max_size - buf.length))
                        p.length)).length =
                        Nat.min (Nat.min k (cfg.max_size - buf.length)) p.length := by
                      rw [List.length_take, min_eq_left hMp]
                    have hih := ih
                      (buf ++ p.take (Nat.min (Nat.min k (cfg.max_size - buf.length))
                        p.length))
                      (p.drop (Nat.min (Nat.min k (cfg.max_size - buf.length)) p.length)) pr
                      (Nat.max (Nat.min buf.length cfg.max_size / 2 * 2) cfg.min_size)
                      (find_cutpoint gear (buf.take (Nat.min buf.length cfg.max_size)) cfg).1
                      false rest' hk.2 (by intro h; simp at h)
                      (by rw [List.length_append, htklen]; omega)
                      (checkpoint_grow gear cfg buf _ _ _ hcpnew)
                      (by
                        show 2 * (buf ++ p.take (Nat.min (Nat.min k
                          (cfg.max_size - buf.length)) p.length)).length +
                          3 * (p.drop (Nat.min (Nat.min k (cfg.max_size - buf.length))
                            p.length)).length + 3 * rest'.length + 1 + 1 ≤ f
                        rw [List.length_append, htklen, List.length_drop]
                        omega)
                    refine hih.trans ?_
                    rw [List.append_assoc, List.take_append_drop]
                    rw [show (buf ++ p.take (Nat.min (Nat.min k (cfg.max_size - buf.length))
                        p.length)).length +
                        (p.drop (Nat.min (Nat.min k (cfg.max_size - buf.length))
                          p.length)).length =
                        buf.length + p.length from by
                      rw [List.length_append, htklen, List.length_drop]
                      omega]
      · -- buffer below min_size and not at EOF: no scan, just read more
        have hminlt : buf.length < cfg.min_size := by
          by_contra hx
          exact hguard (Or.inl (by omega))
        have heF : eof = false := by
          cases eof
          · rfl
          · by_cases hb : buf = []
            · exact absurd ⟨rfl, hb⟩ h0
            · exact absurd (Or.inr ⟨rfl, hb⟩) hguard
        subst heF
        have hm2 : 2 * buf.length + 3 * p.length + 3 * scr.length + 1 + 1 ≤ f + 1 := hm
        have hmaxlt : buf.length < cfg.max_size := by omega
        cases scr with
        | nil =>
          rw [streamRun_succ, pollBody_noscan_greedy gear cfg buf p pr sc fp hminlt hmaxlt]
          have hscl : ([] : List AsyncStep).length = 0 := rfl
          by_cases hm0 : Nat.min (cfg.max_size - buf.length) p.length = 0
          · rw [if_pos hm0]
            have hp0 : p = [] := by
              rcases (nat_min_zero_iff _ _).mp hm0 with h | h
              · omega
              · exact List.length_eq_zero.mp h
            subst hp0
            have hpl0 : ([] : List Nat).length = 0 := rfl
            exact ih buf [] pr sc fp true [] rfl (fun _ => rfl) (by omega) hcp
              (by
                show 2 * buf.length + 3 * ([] : List Nat).length +
                  3 * ([] : List AsyncStep).length + 0 + 1 ≤ f
                omega)
          · rw [if_neg hm0]
            have hMp : Nat.min (cfg.max_size - buf.length) p.length ≤ p.length :=
              nat_min_le_right _ _
            have hMsp : Nat.min (cfg.max_size - buf.length) p.length ≤
                cfg.max_size - buf.length := nat_min_le_left _ _
            have htklen : (p.take (Nat.min (cfg.max_size - buf.length) p.length)).length =
                Nat.min (cfg.max_size - buf.length) p.length := by
              rw [List.length_take, min_eq_left hMp]
            have hih := ih
              (buf ++ p.take (Nat.min (cfg.max_size - buf.length) p.length))
              (p.drop (Nat.min (cfg.max_size - buf.length) p.length)) pr
              sc fp false [] rfl (by intro h; simp at h)
              (by rw [List.length_append, htklen]; omega)
              (checkpoint_grow gear cfg buf _ _ _ hcp)
              (by
                show 2 * (buf ++ p.take (Nat.min (cfg.max_size - buf.length)
                  p.length)).length +
                  3 * (p.drop (Nat.min (cfg.max_size - buf.length) p.length)).length +
                  3 * ([] : List AsyncStep).length + 1 + 1 ≤ f
                rw [List.length_append, htklen, List.length_drop]
                omega)
            refine hih.trans ?_
            rw [List.append_assoc, List.take_append_drop]
            rw [show (buf ++ p.take (Nat.min (cfg.max_size - buf.length)
                p.length)).length +
                (p.drop (Nat.min (cfg.max_size - buf.length) p.length)).length =
                buf.length + p.length from by
              rw [List.length_append, htklen, List.length_drop]
              omega]
        | cons a rest' =>
          cases a with
          | failRead =>
            exfalso
            have h2 : (false && rest'.all astepOk) = true := hef
            simp at h2
          | notReady =>
            rw [streamRun_succ, pollBody_noscan_notReady gear cfg buf p pr sc fp rest'
              hminlt hmaxlt]
            have heft : AErrorFree rest' := by
              have h2 : (true && rest'.all astepOk) = true := hef
              rwa [Bool.true_and] at h2
            have hscl : (AsyncStep.notReady :: rest').length = rest'.length + 1 := rfl
            exact ih buf p pr sc fp false rest' heft hpe hbl hcp
              (by
                show 2 * buf.length + 3 * p.length + 3 * rest'.length + 1 + 1 ≤ f
                omega)
          | deliver k =>
            rw [streamRun_succ, pollBody_noscan_deliver gear cfg buf p pr sc fp k rest'
              hminlt hmaxlt]
            have hk : 1 ≤ k ∧ AErrorFree rest' := by
              have h2 : (decide (1 ≤ k) && rest'.all astepOk) = true := hef
              have h3 := Bool.and_eq_true_iff.mp h2
              exact ⟨of_decide_eq_true h3.1, h3.2⟩
            have hscl : (AsyncStep.deliver k :: rest').length = rest'.length + 1 := rfl
            by_cases hm0 : Nat.min (Nat.min k (cfg.max_size - buf.length)) p.length = 0
            · rw [if_pos hm0]
              have hksp : 1 ≤ Nat.min k (cfg.max_size - buf.length) :=
                nat_le_min hk.1 (by omega)
              have hp0 : p = [] := by
                rcases (nat_min_zero_iff _ _).mp hm0 with h | h
                · omega
                · exact List.length_eq_zero.mp h
              subst hp0
              have hpl0 : ([] : List Nat).length = 0 := rfl
              exact ih buf [] pr sc fp true rest' hk.2 (fun _ => rfl) hbl hcp
                (by
                  show 2 * buf.length + 3 * ([] : List Nat).length +
                    3 * rest'.length + 0 + 1 ≤ f
                  omega)
            · rw [if_neg hm0]
              have hMp : Nat.min (Nat.min k (cfg.max_size - buf.length)) p.length ≤
                  p.length := nat_min_le_right _ _
              have hMsp : Nat.min (Nat.min k (cfg.max_size - buf.length)) p.length ≤
                  Nat.min k (cfg.max_size - buf.length) := nat_min_le_left _ _
              have hsp : Nat.min k (cfg.max_size - buf.length) ≤
                  cfg.max_size - buf.length := nat_min_le_right _ _
              have htklen : (p.take (Nat.min (Nat.min k (cfg.max_size - buf.length))
                  p.length)).length =
                  Nat.min (Nat.min k (cfg.max_size - buf.length)) p.length := by
                rw [List.length_take, min_eq_left hMp]
              have hih := ih
                (buf ++ p.take (Nat.min (Nat.min k (cfg.max_size - buf.length)) p.length))
                (p.drop (Nat.min (Nat.min k (cfg.max_size - buf.length)) p.length)) pr
                sc fp false rest' hk.2 (by intro h; simp at h)
                (by rw [List.length_append, htklen]; omega)
                (checkpoint_grow gear cfg buf _ _ _ hcp)
                (by
                  show 2 * (buf ++ p.take (Nat.min (Nat.min k
                    (cfg.max_size - buf.length)) p.length)).length +
                    3 * (p.drop (Nat.min (Nat.min k (cfg.max_size - buf.length))
                      p.length)).length + 3 * rest'.length + 1 + 1 ≤ f
                  rw [List.length_append, htklen, List.length_drop]
                  omega)
              refine hih.trans ?_
              rw [List.append_assoc, List.take_append_drop]
              rw [show (buf ++ p.take (Nat.min (Nat.min k (cfg.max_size - buf.length))
                  p.length)).length +
                  (p.drop (Nat.min (Nat.min k (cfg.max_size - buf.length))
                    p.length)).length =
                  buf.length + p.length from by
                rw [List.length_append, htklen, List.length_drop]
                omega]

/-! Top-level emission equalities for the two drivers. -/

/-- Over an error-free blocking source, chunker.chunks(reader) yields exactly
the reference chunking of the input, each wrapped in Ok. -/
theorem iterEmit_eq_chunkAll (gear : Nat → Nat) (cfg : Config) (S : List Nat)
    (scr : List ReadStep) (hmin2 : 2 ≤ cfg.min_size) (hminmax : cfg.min_size < cfg.max_size)
    (hef : ErrorFree scr) :
    iterEmit gear cfg S scr = (chunkAll gear cfg S).map Except.ok := by
  have h := iterRun_eq gear cfg hmin2 hminmax (3 * S.length + 3 * scr.length + 2)
    ⟨[], 0, false⟩ ⟨S, scr⟩ hef (fun hx => Bool.noConfusion hx) (by simp)
    (by
      show 2 * ([] : List Nat).length + 3 * S.length + 3 * scr.length + 2 ≤
        3 * S.length + 3 * scr.length + 2
      simp only [List.length_nil]
      omega)
  simp only [List.nil_append, List.length_nil, Nat.zero_add] at h
  exact h

/-- Over an error-free async source, chunker.as_stream(reader) yields exactly
the reference chunking of the input, each wrapped in Ok. -/
theorem streamEmit_eq_chunkAll (gear : Nat → Nat) (cfg : Config) (S : List Nat)
    (ascr : List AsyncStep) (hmin2 : 2 ≤ cfg.min_size)
    (hminmax : cfg.min_size < cfg.max_size) (haef : AErrorFree ascr) :
    streamEmit gear cfg S ascr = (chunkAll gear cfg S).map Except.ok := by
  have h := streamRun_eq gear cfg hmin2 hminmax (3 * S.length + 3 * ascr.length + 2)
    [] S 0 0 0 false ascr haef (fun hx => Bool.noConfusion hx) (by simp)
    (Or.inl ⟨rfl, rfl⟩)
    (by
      show 2 * ([] : List Nat).length + 3 * S.length + 3 * ascr.length + 1 + 1 ≤
        3 * S.length + 3 * ascr.length + 2
      simp only [List.length_nil]
      omega)
  simp only [List.nil_append, List.length_nil, Nat.zero_add] at h
  exact h

/-! Buffer-size invariants for the two drivers. -/

/-- The refill loop never grows the buffer past max_size: each read is capped
by needed = max_size - buf.len(). -/
theorem refill_len_le (cfg : Config) : ∀ fuel (buf : List Nat) (eof : Bool) (rdr : Reader),
    buf.length ≤ cfg.max_size →
    (refill cfg fuel buf eof rdr).2.1.length ≤ cfg.max_size := by
  intro fuel
  induction fuel with
  | zero =>
    intro buf eof rdr h
    exact h
  | succ f ih =>
    intro buf eof rdr h
    by_cases hc : eof = false ∧ buf.length < cfg.max_size
    · obtain ⟨he, hlt⟩ := hc
      subst he
      rcases rdr with ⟨p, scr⟩
      cases scr with
      | nil =>
        rw [refill_greedy cfg f buf p hlt]
        by_cases hm0 : Nat.min (cfg.max_size - buf.length) p.length = 0
        · rw [if_pos hm0]
          exact h
        · rw [if_neg hm0]
          refine ih _ _ _ ?_
          rw [List.length_append, List.length_take]
          have h1 : Nat.min (cfg.max_size - buf.length) p.length ≤
              cfg.max_size - buf.length := nat_min_le_left _ _
          have h2 : Nat.min (Nat.min (cfg.max_size - buf.length) p.length) p.length ≤
              Nat.min (cfg.max_size - buf.length) p.length := nat_min_le_left _ _
          omega
      | cons a rest =>
        cases a with
        | failRead =>
          rw [refill_fail cfg f buf p rest hlt]
          exact h
        | deliver k =>
          rw [refill_deliver cfg f buf p k rest hlt]
          by_cases hm0 : Nat.min (Nat.min k (cfg.max_size - buf.length)) p.length = 0
          · rw [if_pos hm0]
            exact h
          · rw [if_neg hm0]
            refine ih _ _ _ ?_
            rw [List.length_append, List.length_take]
            have h1 : Nat.min (Nat.min k (cfg.max_size - buf.length)) p.length ≤
                Nat.min k (cfg.max_size - buf.length) := nat_min_le_left _ _
            have h2 : Nat.min k (cfg.max_size - buf.length) ≤
                cfg.max_size - buf.length := nat_min_le_right _ _
            have h3 : Nat.min (Nat.min (Nat.min k (cfg.max_size - buf.length)) p.length)
                p.length ≤ Nat.min (Nat.min k (cfg.max_size - buf.length)) p.length :=
              nat_min_le_left _ _
            omega
    · rw [refill_stop cfg (f + 1) buf eof rdr hc]
      exact h

/-- One poll never leaves more than max_size bytes buffered: reads are capped
by the spare capacity max_size - buf.len() of the max_size-capacity buffer. -/
theorem pollBody_len_le (gear : Nat → Nat) (cfg : Config) (st : StreamState)
    (hbl : st.buf.length ≤ cfg.max_size) :
    (pollBody gear cfg st).2.buf.length ≤ cfg.max_size := by
  rcases st with ⟨buf, pr, eof, sc, fp, p, scr⟩
  have hbl2 : buf.length ≤ cfg.max_size := hbl
  simp only [pollBody]
  split
  · exact hbl2
  split
  case _ c st1 heq =>
    split at heq
    · split at heq
      case _ cp hcp =>
        have h2 := (Prod.mk.injEq _ _ _ _).mp ((Sum.inl.injEq _ _).mp heq)
        show st1.buf.length ≤ cfg.max_size
        rw [← h2.2]
        show (buf.drop cp).length ≤ cfg.max_size
        rw [List.length_drop]
        omega
      case _ hcp =>
        exact absurd heq (by simp)
    · exact absurd heq (by simp)
  case _ st1 heq =>
    have hb1 : st1.buf = buf := by
      split at heq
      · split at heq
        case _ cp hcp => exact absurd heq (by simp)
        case _ hcp =>
          have h2 := (Sum.inr.injEq _ _).mp heq
          rw [← h2]
      · have h2 := (Sum.inr.injEq _ _).mp heq
        rw [← h2]
    split
    case _ hrd =>
      split
      next rest =>
        show st1.buf.length ≤ cfg.max_size
        rw [hb1]
        exact hbl2
      next rest =>
        show st1.buf.length ≤ cfg.max_size
        rw [hb1]
        exact hbl2
      next k rest _ =>
        split
        · show st1.buf.length ≤ cfg.max_size
          rw [hb1]
          exact hbl2
        · show (st1.buf ++ st1.pending.take (Nat.min (Nat.min k
            (cfg.max_size - st1.buf.length)) st1.pending.length)).length ≤ cfg.max_size
          rw [List.length_append, List.length_take]
          have h1 : Nat.min (Nat.min k (cfg.max_size - st1.buf.length))
              st1.pending.length ≤ Nat.min k (cfg.max_size - st1.buf.length) :=
            nat_min_le_left _ _
          have h2 : Nat.min k (cfg.max_size - st1.buf.length) ≤
              cfg.max_size - st1.buf.length := nat_min_le_right _ _
          have h3 : Nat.min (Nat.min (Nat.min k (cfg.max_size - st1.buf.length))
              st1.pending.length) st1.pending.length ≤
              Nat.min (Nat.min k (cfg.max_size - st1.buf.length)) st1.pending.length :=
            nat_min_le_left _ _
          omega
      next =>
        split
        · show st1.buf.length ≤ cfg.max_size
          rw [hb1]
          exact hbl2
        · show (st1.buf ++ st1.pending.take (Nat.min
            (cfg.max_size - st1.buf.length) st1.pending.length)).length ≤ cfg.max_size
          rw [List.length_append, List.length_take]
          have h1 : Nat.min (cfg.max_size - st1.buf.length) st1.pending.length ≤
              cfg.max_size - st1.buf.length := nat_min_le_left _ _
          have h2 : Nat.min (Nat.min (cfg.max_size - st1.buf.length) st1.pending.length)
              st1.pending.length ≤
              Nat.min (cfg.max_size - st1.buf.length) st1.pending.length :=
            nat_min_le_left _ _
          omega
    case _ hrd =>
      rw [hb1]
      exact hbl2

/-! Claim theorems. -/

/-- C1: for every valid configuration and every input S delivered through an
error-free source, the blocking iterator emits Ok-wrapped chunks whose offsets
start at 0 and chain (offset_i + length_i = offset_{i+1}, hence strictly
increasing since every length is positive), and whose data fields concatenate
back to S byte-for-byte. -/
theorem C1_iter_partition_reconstruct (gear : Nat → Nat) (cfg : Config) (S : List Nat)
    (scr : List ReadStep) (hv : cfg.Valid) (hef : ErrorFree scr) :
    iterEmit gear cfg S scr = (chunkAll gear cfg S).map Except.ok ∧
    chainedFrom 0 (chunkAll gear cfg S) ∧
    ((chunkAll gear cfg S).map Chunk.data).flatten = S ∧
    (∀ c ∈ chunkAll gear cfg S, 1 ≤ c.length ∧ c.length = c.data.length) := by
  obtain ⟨h1, h2, h3, h4, h5, h6, h7, h8⟩ := hv
  have hmin2 : 2 ≤ cfg.min_size := by omega
  have hminmax : cfg.min_size < cfg.max_size := by omega
  have hspec := chunkAllGo_spec gear cfg hmin2 (by omega) S.length S 0 (le_refl _)
  exact ⟨iterEmit_eq_chunkAll gear cfg S scr hmin2 hminmax hef, hspec.1, hspec.2.1,
    fun c hc => ⟨(hspec.2.2 c hc).1, (hspec.2.2 c hc).2.1⟩⟩

theorem C1_witness : cfgW.Valid ∧ ErrorFree [ReadStep.deliver 2] ∧
    (iterEmit gearW cfgW [5, 6, 7] [ReadStep.deliver 2] =
      (chunkAll gearW cfgW [5, 6, 7]).map Except.ok ∧
    chainedFrom 0 (chunkAll gearW cfgW [5, 6, 7]) ∧
    ((chunkAll gearW cfgW [5, 6, 7]).map Chunk.data).flatten = [5, 6, 7] ∧
    (∀ c ∈ chunkAll gearW cfgW [5, 6, 7], 1 ≤ c.length ∧ c.length = c.data.length)) :=
  ⟨by decide, by decide,
    C1_iter_partition_reconstruct gearW cfgW [5, 6, 7] [ReadStep.deliver 2]
      (by decide) (by decide)⟩

/-- C2 (amended): for every valid configuration, both drivers emit the
reference chunking; every chunk has length at most max_size, and every
non-final chunk has length at least min_size - 1 (not min_size as claimed:
for odd min_size the scan starts at the even offset min_size - 1, so a
non-final chunk of length min_size - 1 is possible). -/
theorem C2_length_bounds (gear : Nat → Nat) (cfg : Config) (S : List Nat)
    (scr : List ReadStep) (ascr : List AsyncStep) (hv : cfg.Valid)
    (hef : ErrorFree scr) (haef : AErrorFree ascr) :
    iterEmit gear cfg S scr = (chunkAll gear cfg S).map Except.ok ∧
    streamEmit gear cfg S ascr = (chunkAll gear cfg S).map Except.ok ∧
    (∀ c ∈ chunkAll gear cfg S, c.length ≤ cfg.max_size ∧
      (c.offset + c.length < S.length → cfg.min_size - 1 ≤ c.length)) := by
  obtain ⟨h1, h2, h3, h4, h5, h6, h7, h8⟩ := hv
  have hmin2 : 2 ≤ cfg.min_size := by omega
  have hminmax : cfg.min_size < cfg.max_size := by omega
  refine ⟨iterEmit_eq_chunkAll gear cfg S scr hmin2 hminmax hef,
    streamEmit_eq_chunkAll gear cfg S ascr hmin2 hminmax haef, ?_⟩
  intro c hc
  have hspec := chunkAllGo_spec gear cfg hmin2 (by omega) S.length S 0 (le_refl _)
  refine ⟨(hspec.2.2 c hc).2.2, ?_⟩
  intro hnf
  exact chunkAllGo_minlen gear cfg hmin2 hminmax S.length S 0 (le_refl _) c hc
    (by omega)

theorem C2_witness : cfgW.Valid ∧ ErrorFree [ReadStep.deliver 3] ∧
    AErrorFree [AsyncStep.deliver 1] ∧
    (iterEmit gearW cfgW [9, 8] [ReadStep.deliver 3] =
      (chunkAll gearW cfgW [9, 8]).map Except.ok ∧
    streamEmit gearW cfgW [9, 8] [AsyncStep.deliver 1] =
      (chunkAll gearW cfgW [9, 8]).map Except.ok ∧
    (∀ c ∈ chunkAll gearW cfgW [9, 8], c.length ≤ cfgW.max_size ∧
      (c.offset + c.length < ([9, 8] : List Nat).length →
        cfgW.min_size - 1 ≤ c.length))) :=
  ⟨by decide, by decide, by decide,
    C2_length_bounds gearW cfgW [9, 8] [ReadStep.deliver 3] [AsyncStep.deliver 1]
      (by decide) (by decide) (by decide)⟩

/-- C2 counterexample to the literal spec text: with the valid configuration
cfgOdd (min_size = 65, odd) and the all-zero gear table, a 66-byte input of
minimum length 65 or more produces a non-final chunk of length 64 < min_size:
the scan starts at the even offset 2*(min_size/2) = 64 and cuts there. -/
theorem C2_counterexample : cfgOdd.Valid ∧ cfgOdd.min_size ≤ sOdd.length ∧
    ∃ c ∈ chunkAll gearZero cfgOdd sOdd,
      c.offset + c.length < sOdd.length ∧ c.length < cfgOdd.min_size := by decide

/-- C3: resuming find_cutpoint_inner from the driver checkpoint
(scanned = max((Lp/2)*2, min_size), carried hash h) after a fruitless full
scan of the first Lp bytes gives exactly the result of one fresh scan of the
whole buffer from offset 0 with hash 0. -/
theorem C3_incremental_resume (gear : Nat → Nat) (cfg : Config) (T : List Nat)
    (Lp h : Nat) (hv : cfg.Valid) (hLpT : Lp ≤ T.length) (hminLp : cfg.min_size ≤ Lp)
    (hLpmax : Lp < cfg.max_size)
    (hck : find_cutpoint gear (T.take Lp) cfg = (h, Lp)) :
    find_cutpoint_inner gear T (Nat.max (Lp / 2 * 2) cfg.min_size) h cfg =
      find_cutpoint gear T cfg := by
  obtain ⟨h1, h2, h3, h4, h5, h6, h7, h8⟩ := hv
  exact resume_scan gear cfg T Lp h (by omega) hLpT hminLp hLpmax hck

theorem C3_witness : cfgW.Valid ∧ 64 ≤ (List.replicate 66 7 : List Nat).length ∧
    cfgW.min_size ≤ 64 ∧ 64 < cfgW.max_size ∧
    find_cutpoint gearW ((List.replicate 66 7 : List Nat).take 64) cfgW = (0, 64) ∧
    find_cutpoint_inner gearW (List.replicate 66 7) (Nat.max (64 / 2 * 2) cfgW.min_size)
      0 cfgW = find_cutpoint gearW (List.replicate 66 7) cfgW :=
  ⟨by decide, by decide, by decide, by decide, by decide,
    C3_incremental_resume gearW cfgW (List.replicate 66 7) 64 0 (by decide) (by decide)
      (by decide) (by decide) (by decide)⟩

/-- C4: for the same input bytes and the same valid configuration, the
blocking iterator and the cooperative stream emit identical element
sequences, whatever the (error-free) fragmentation of reads on either side. -/
theorem C4_driver_equivalence (gear : Nat → Nat) (cfg : Config) (S : List Nat)
    (scr : List ReadStep) (ascr : List AsyncStep) (hv : cfg.Valid)
    (hef : ErrorFree scr) (haef : AErrorFree ascr) :
    iterEmit gear cfg S scr = streamEmit gear cfg S ascr := by
  obtain ⟨h1, h2, h3, h4, h5, h6, h7, h8⟩ := hv
  have hmin2 : 2 ≤ cfg.min_size := by omega
  have hminmax : cfg.min_size < cfg.max_size := by omega
  rw [iterEmit_eq_chunkAll gear cfg S scr hmin2 hminmax hef,
    streamEmit_eq_chunkAll gear cfg S ascr hmin2 hminmax haef]

theorem C4_witness : cfgW.Valid ∧ ErrorFree [ReadStep.deliver 1, ReadStep.deliver 5] ∧
    AErrorFree [AsyncStep.notReady, AsyncStep.deliver 2, AsyncStep.deliver 9] ∧
    iterEmit gearW cfgW [3, 1, 4, 1, 5] [ReadStep.deliver 1, ReadStep.deliver 5] =
      streamEmit gearW cfgW [3, 1, 4, 1, 5]
        [AsyncStep.notReady, AsyncStep.deliver 2, AsyncStep.deliver 9] :=
  ⟨by decide, by decide, by decide,
    C4_driver_equivalence gearW cfgW [3, 1, 4, 1, 5]
      [ReadStep.deliver 1, ReadStep.deliver 5]
      [AsyncStep.notReady, AsyncStep.deliver 2, AsyncStep.deliver 9]
      (by decide) (by decide) (by decide)⟩

/-- C5 (amended): for a valid configuration and a nonempty slice,
find_cutpoint returns a cut in [1, min(len, max_size)].  The nonemptiness
hypothesis is necessary: on the empty slice the cut is 0. -/
theorem C5_cutpoint_range (gear : Nat → Nat) (cfg : Config) (src : List Nat)
    (hv : cfg.Valid) (hne : src ≠ []) :
    1 ≤ (find_cutpoint gear src cfg).2 ∧
    (find_cutpoint gear src cfg).2 ≤ Nat.min src.length cfg.max_size := by
  obtain ⟨h1, h2, h3, h4, h5, h6, h7, h8⟩ := hv
  constructor
  · rw [find_cutpoint_def]
    exact inner_cut_pos gear src 0 0 cfg (by omega) (by omega) hne
  · rw [find_cutpoint_def]
    exact inner_cut_le gear src 0 0 cfg

theorem C5_witness : cfgW.Valid ∧ ([1, 2, 3] : List Nat) ≠ [] ∧
    (1 ≤ (find_cutpoint gearW [1, 2, 3] cfgW).2 ∧
    (find_cutpoint gearW [1, 2, 3] cfgW).2 ≤
      Nat.min ([1, 2, 3] : List Nat).length cfgW.max_size) :=
  ⟨by decide, by decide,
    C5_cutpoint_range gearW cfgW [1, 2, 3] (by decide) (by decide)⟩

/-- C5 counterexample to the literal spec text: on the empty slice the
returned cut is 0, outside the claimed inclusive range [1, min(len, max)]. -/
theorem C5_counterexample : cfgW.Valid ∧ (find_cutpoint gearW [] cfgW).2 = 0 := by decide

/-- C6 (amended): when the scan window is at most min_size, the
non-incremental entry returns (0, |S|) and the incremental variant carries
the caller's prev_hash through with the same cut; for a NONEMPTY sub-minimum
input the blocking driver emits exactly one chunk (0, S, 0, |S|).  The
nonemptiness hypothesis is necessary: on empty input the driver emits no
chunk at all. -/
theorem C6_submin_behaviour (gear : Nat → Nat) (cfg : Config) (S : List Nat)
    (scr : List ReadStep) (offset prev : Nat) (hv : cfg.Valid) (hne : S ≠ [])
    (hle : S.length ≤ cfg.min_size) (hef : ErrorFree scr) :
    find_cutpoint gear S cfg = (0, S.length) ∧
    find_cutpoint_inner gear S offset prev cfg = (prev, S.length) ∧
    iterEmit gear cfg S scr = [Except.ok ⟨0, S, 0, S.length⟩] := by
  obtain ⟨h1, h2, h3, h4, h5, h6, h7, h8⟩ := hv
  have hmin2 : 2 ≤ cfg.min_size := by omega
  have hminmax : cfg.min_size < cfg.max_size := by omega
  have hminle : Nat.min S.length cfg.max_size = S.length := nat_min_eq_left (by omega)
  have hsub : Nat.min S.length cfg.max_size ≤ cfg.min_size := by omega
  have hfc : find_cutpoint gear S cfg = (0, S.length) := by
    rw [find_cutpoint_def, inner_sub_min gear S 0 0 cfg hsub, hminle]
  have hinner : find_cutpoint_inner gear S offset prev cfg = (prev, S.length) := by
    rw [inner_sub_min gear S offset prev cfg hsub, hminle]
  refine ⟨hfc, hinner, ?_⟩
  have hwin : S.take (Nat.min S.length cfg.max_size) = S := by
    rw [hminle]
    exact List.take_length S
  have hca : chunkAll gear cfg S = [⟨0, S, 0, S.length⟩] := by
    show chunkAllGo gear cfg S.length S 0 = _
    rw [chunk_step_eq gear cfg hmin2 (by omega) S 0 hne, hwin, hfc]
    simp [List.take_length, List.drop_length, chunkAllGo_nil]
  rw [iterEmit_eq_chunkAll gear cfg S scr hmin2 hminmax hef, hca]
  rfl

theorem C6_witness : cfgW.Valid ∧ ([5, 6, 7] : List Nat) ≠ [] ∧
    ([5, 6, 7] : List Nat).length ≤ cfgW.min_size ∧ ErrorFree [] ∧
    (find_cutpoint gearW [5, 6, 7] cfgW = (0, ([5, 6, 7] : List Nat).length) ∧
    find_cutpoint_inner gearW [5, 6, 7] 2 99 cfgW =
      (99, ([5, 6, 7] : List Nat).length) ∧
    iterEmit gearW cfgW [5, 6, 7] [] =
      [Except.ok ⟨0, [5, 6, 7], 0, ([5, 6, 7] : List Nat).length⟩]) :=
  ⟨by decide, by decide, by decide, by decide,
    C6_submin_behaviour gearW cfgW [5, 6, 7] [] 2 99 (by decide) (by decide)
      (by decide) (by decide)⟩

/-- C6 counterexample to the literal spec text: the empty input is shorter
than min_size, yet the blocking driver emits no chunk at all rather than one
chunk of length 0. -/
theorem C6_counterexample : cfgW.Valid ∧ iterEmit gearW cfgW [] [] = [] := by decide

/-- C7 (amended): the unrolled two-byte update equals the two standard gear
steps (the first shifted left by one), and the final mask check agrees
unconditionally; the intermediate check (h1 AND mask_ls) = 0 agrees with the
standard (h' AND mask) = 0 exactly when mask < 2^63 (bit 63 clear), because
mask << 1 on u64 drops bit 63. -/
theorem C7_unrolled_equivalence (gear : Nat → Nat) (h b0 b1 m : Nat)
    (hm : m < 2 ^ 63) :
    unrolledFirst gear h b0 = gearStep gear h b0 * 2 % U64 ∧
    unrolledSecond gear (unrolledFirst gear h b0) b1 =
      gearStep gear (gearStep gear h b0) b1 ∧
    ((unrolledSecond gear (unrolledFirst gear h b0) b1 &&& m = 0) ↔
      (gearStep gear (gearStep gear h b0) b1 &&& m = 0)) ∧
    ((unrolledFirst gear h b0 &&& maskLS m = 0) ↔ (gearStep gear h b0 &&& m = 0)) := by
  refine ⟨unrolledFirst_eq gear h b0, unrolledSecond_eq gear h b0 b1, ?_,
    unrolled_intermediate_check gear h b0 m hm⟩
  rw [unrolledSecond_eq gear h b0 b1]

theorem C7_witness : (4 : Nat) < 2 ^ 63 ∧
    (unrolledFirst gearW 5 1 = gearStep gearW 5 1 * 2 % U64 ∧
    unrolledSecond gearW (unrolledFirst gearW 5 1) 2 =
      gearStep gearW (gearStep gearW 5 1) 2 ∧
    ((unrolledSecond gearW (unrolledFirst gearW 5 1) 2 &&& 4 = 0) ↔
      (gearStep gearW (gearStep gearW 5 1) 2 &&& 4 = 0)) ∧
    ((unrolledFirst gearW 5 1 &&& maskLS 4 = 0) ↔ (gearStep gearW 5 1 &&& 4 = 0))) :=
  ⟨by decide, C7_unrolled_equivalence gearW 5 1 2 4 (by decide)⟩

/-- C7 counterexample to the literal spec text: with a mask whose bit 63 is
set (mask = 2^63) and a gear entry 2^63, the unrolled intermediate check
passes (both sides shift to 0) while the standard intermediate check fails,
so the claimed equivalence does not hold for every 64-bit mask value. -/
theorem C7_counterexample :
    (unrolledFirst gearTop 0 0 &&& maskLS (2 ^ 63) = 0) ∧
    ¬ (gearStep gearTop 0 0 &&& 2 ^ 63 = 0) := by decide

/-- C8: find_cutpoint_inner accesses the source only inside the scan window
min(len, max_size): the bounds-checked twin, where every byte access goes
through getElem? on the window and any out-of-window access aborts with none,
always succeeds and returns the same result, for every slice, offset and
carried hash; structural recursion gives totality. -/
theorem C8_in_bounds_total (gear : Nat → Nat) (src : List Nat) (offset prev : Nat)
    (cfg : Config) :
    find_cutpoint_innerChecked gear src offset prev cfg =
      some (find_cutpoint_inner gear src offset prev cfg) :=
  innerChecked_eq gear src offset prev cfg

/-- C9: at any driver state (any buffered bytes buf, any processed count, any
pending input), a failing read yields exactly one error element without
consuming buffered bytes or advancing processed: the subsequent elements are
exactly the chunks of buf ++ pending starting at offset processed, so a retry
loses nothing and emits the next chunk with the correct offset.  Part 1:
blocking iterator, error on the first read of a refill.  Part 2: blocking
iterator, error after a partial delivery inside one refill (the delivered
bytes are retained too).  Part 3: stream, error on a poll that reads before
reaching min_size.  Part 4: stream, error on a poll that reads after a
fruitless checkpointed scan. -/
theorem C9_read_error_recovery (gear : Nat → Nat) (cfg : Config) (hv : cfg.Valid) :
    (∀ fuel (buf p : List Nat) (pr : Nat) (scr : List ReadStep), ErrorFree scr →
      buf.length < cfg.max_size →
      2 * buf.length + 3 * p.length + 3 * scr.length + 3 ≤ fuel →
      iterRun gear cfg fuel ⟨buf, pr, false⟩ ⟨p, ReadStep.failRead :: scr⟩ =
        Except.error () ::
          (chunkAllGo gear cfg (buf.length + p.length) (buf ++ p) pr).map Except.ok) ∧
    (∀ (S : List Nat) (k : Nat) (scr : List ReadStep), ErrorFree scr → S ≠ [] →
      1 ≤ k → k < cfg.max_size →
      iterEmit gear cfg S (ReadStep.deliver k :: ReadStep.failRead :: scr) =
        Except.error () :: (chunkAll gear cfg S).map Except.ok) ∧
    (∀ fuel (buf p : List Nat) (pr : Nat) (ascr : List AsyncStep), AErrorFree ascr →
      buf.length < cfg.min_size →
      2 * buf.length + 3 * p.length + 3 * ascr.length + 3 ≤ fuel →
      streamRun gear cfg fuel ⟨buf, pr, false, 0, 0, p, AsyncStep.failRead :: ascr⟩ =
        Except.error () ::
          (chunkAllGo gear cfg (buf.length + p.length) (buf ++ p) pr).map Except.ok) ∧
    (∀ fuel (buf p : List Nat) (pr sc fp : Nat) (ascr : List AsyncStep),
      AErrorFree ascr →
      cfg.min_size ≤ buf.length → buf.length < cfg.max_size →
      ((sc = 0 ∧ fp = 0) ∨ ∃ Lp, cfg.min_size ≤ Lp ∧ Lp ≤ buf.length ∧
        Lp < cfg.max_size ∧ find_cutpoint gear (buf.take Lp) cfg = (fp, Lp) ∧
        sc = Nat.max (Lp / 2 * 2) cfg.min_size) →
      ¬ (find_cutpoint_inner gear (buf.take (Nat.min buf.length cfg.max_size)) sc fp
          cfg).2 < Nat.min buf.length cfg.max_size →
      2 * buf.length + 3 * p.length + 3 * ascr.length + 3 ≤ fuel →
      streamRun gear cfg fuel ⟨buf, pr, false, sc, fp, p, AsyncStep.failRead :: ascr⟩ =
        Except.error () ::
          (chunkAllGo gear cfg (buf.length + p.length) (buf ++ p) pr).map Except.ok) := by
  obtain ⟨h1, h2, h3, h4, h5, h6, h7, h8⟩ := hv
  have hmin2 : 2 ≤ cfg.min_size := by omega
  have hminmax : cfg.min_size < cfg.max_size := by omega
  have hmax1 : 1 ≤ cfg.max_size := by omega
  have hmin1 : 1 ≤ cfg.min_size := by omega
  refine ⟨?_, ?_, ?_, ?_⟩
  · -- part 1: blocking iterator, failRead as the next read, arbitrary state
    intro fuel buf p pr scr hef hblt hfu
    obtain ⟨f, rfl⟩ : ∃ f, fuel = f + 1 := ⟨fuel - 1, by omega⟩
    rw [iterRun_succ]
    have href : refill cfg (refillFuel cfg ⟨p, ReadStep.failRead :: scr⟩) buf false
        ⟨p, ReadStep.failRead :: scr⟩ = (false, buf, false, ⟨p, scr⟩) := by
      have hfu2 : refillFuel cfg (⟨p, ReadStep.failRead :: scr⟩ : Reader) =
          (scr.length + cfg.max_size + 1) + 1 := by
        show (ReadStep.failRead :: scr).length + cfg.max_size + 1 = _
        rw [List.length_cons]
        omega
      rw [hfu2]
      exact refill_fail cfg (scr.length + cfg.max_size + 1) buf p scr hblt
    rw [iterNext_err gear cfg ⟨buf, pr, false⟩ ⟨p, ReadStep.failRead :: scr⟩ buf false
      ⟨p, scr⟩ (by simp) href]
    show Except.error () :: iterRun gear cfg f ⟨buf, pr, false⟩ ⟨p, scr⟩ = _
    have h := iterRun_eq gear cfg hmin2 hminmax f ⟨buf, pr, false⟩ ⟨p, scr⟩ hef
      (fun hx => Bool.noConfusion hx)
      (show buf.length ≤ cfg.max_size by omega)
      (show 2 * buf.length + 3 * p.length + 3 * scr.length + 2 ≤ f by omega)
    rw [h]
  · -- part 2: blocking iterator, partial delivery then failRead in one refill
    intro S k scr hef hne hk1 hkmax
    have hS1 : 1 ≤ S.length := List.length_pos.mpr hne
    have hm1 : 1 ≤ Nat.min k S.length := nat_le_min hk1 hS1
    have hmk : Nat.min k S.length ≤ k := nat_min_le_left _ _
    have hmS : Nat.min k S.length ≤ S.length := nat_min_le_right _ _
    have hlen2 : (ReadStep.deliver k :: ReadStep.failRead :: scr).length =
        scr.length + 2 := by simp
    show iterRun gear cfg
      (3 * S.length + 3 * (ReadStep.deliver k :: ReadStep.failRead :: scr).length + 2)
      ⟨[], 0, false⟩ ⟨S, ReadStep.deliver k :: ReadStep.failRead :: scr⟩ = _
    have hfux : 3 * S.length +
        3 * (ReadStep.deliver k :: ReadStep.failRead :: scr).length + 2 =
        (3 * S.length + 3 * scr.length + 7) + 1 := by
      rw [hlen2]
      omega
    rw [hfux, iterRun_succ]
    have hmexp : Nat.min (Nat.min k (cfg.max_size - ([] : List Nat).length)) S.length =
        Nat.min k S.length := by
      simp only [List.length_nil, Nat.sub_zero]
      rw [nat_min_eq_left (le_of_lt hkmax)]
    have href : refill cfg
        (refillFuel cfg ⟨S, ReadStep.deliver k :: ReadStep.failRead :: scr⟩) [] false
        ⟨S, ReadStep.deliver k :: ReadStep.failRead :: scr⟩ =
        (false, [] ++ S.take (Nat.min k S.length), false,
          ⟨S.drop (Nat.min k S.length), scr⟩) := by
      have hfu2 : refillFuel cfg
          (⟨S, ReadStep.deliver k :: ReadStep.failRead :: scr⟩ : Reader) =
          ((scr.length + cfg.max_size + 1) + 1) + 1 := by
        show (ReadStep.deliver k :: ReadStep.failRead :: scr).length +
          cfg.max_size + 1 = _
        rw [hlen2]
        omega
      rw [hfu2]
      rw [refill_deliver cfg ((scr.length + cfg.max_size + 1) + 1) [] S k
        (ReadStep.failRead :: scr) (by simp only [List.length_nil]; omega)]
      rw [if_neg (by rw [hmexp]; omega)]
      rw [hmexp]
      rw [refill_fail cfg (scr.length + cfg.max_size + 1)
        ([] ++ S.take (Nat.min k S.length)) (S.drop (Nat.min k S.length)) scr
        (by
          simp only [List.nil_append, List.length_take]
          exact lt_of_le_of_lt (le_trans (min_le_left _ _) hmk) hkmax)]
    rw [iterNext_err gear cfg ⟨[], 0, false⟩
      ⟨S, ReadStep.deliver k :: ReadStep.failRead :: scr⟩
      ([] ++ S.take (Nat.min k S.length)) false
      ⟨S.drop (Nat.min k S.length), scr⟩ (by simp) href]
    show Except.error () :: iterRun gear cfg (3 * S.length + 3 * scr.length + 7)
      ⟨S.take (Nat.min k S.length), 0, false⟩ ⟨S.drop (Nat.min k S.length), scr⟩ = _
    have h := iterRun_eq gear cfg hmin2 hminmax (3 * S.length + 3 * scr.length + 7)
      ⟨S.take (Nat.min k S.length), 0, false⟩ ⟨S.drop (Nat.min k S.length), scr⟩ hef
      (fun hx => Bool.noConfusion hx)
      (by
        show (S.take (Nat.min k S.length)).length ≤ cfg.max_size
        rw [List.length_take, min_eq_left hmS]
        omega)
      (by
        show 2 * (S.take (Nat.min k S.length)).length +
          3 * (S.drop (Nat.min k S.length)).length + 3 * scr.length + 2 ≤
          3 * S.length + 3 * scr.length + 7
        rw [List.length_take, List.length_drop, min_eq_left hmS]
        omega)
    rw [show ((S.take (Nat.min k S.length)).length +
        (S.drop (Nat.min k S.length)).length) = S.length from by
      rw [List.length_take, List.length_drop, min_eq_left hmS]
      omega] at h
    rw [List.take_append_drop] at h
    rw [h]
    rfl
  · -- part 3: stream, failRead on a sub-minimum poll, arbitrary state
    intro fuel buf p pr ascr haef hblt hfu
    obtain ⟨f, rfl⟩ : ∃ f, fuel = f + 1 := ⟨fuel - 1, by omega⟩
    rw [streamRun_succ,
      pollBody_noscan_fail gear cfg buf p pr 0 0 ascr hblt (by omega)]
    show Except.error () :: streamRun gear cfg f ⟨buf, pr, false, 0, 0, p, ascr⟩ = _
    have h := streamRun_eq gear cfg hmin2 hminmax f buf p pr 0 0 false ascr haef
      (fun hx => Bool.noConfusion hx) (by omega) (Or.inl ⟨rfl, rfl⟩)
      (show 2 * buf.length + 3 * p.length + 3 * ascr.length + 1 + 1 ≤ f by omega)
    rw [h]
  · -- part 4: stream, failRead after a fruitless checkpointed scan
    intro fuel buf p pr sc fp ascr haef hminb hmaxlt hcp hnocut hfu
    obtain ⟨f, rfl⟩ : ∃ f, fuel = f + 1 := ⟨fuel - 1, by omega⟩
    rw [streamRun_succ,
      pollBody_ckpt_fail gear cfg buf p pr sc fp ascr hminb hnocut (by omega)]
    have hscan := checkpoint_scan_eq gear cfg buf sc fp hmin1 hcp
    rw [hscan]
    rw [hscan] at hnocut
    show Except.error () :: streamRun gear cfg f ⟨buf, pr, false,
      Nat.max (Nat.min buf.length cfg.max_size / 2 * 2) cfg.min_size,
      (find_cutpoint gear (buf.take (Nat.min buf.length cfg.max_size)) cfg).1,
      p, ascr⟩ = _
    have hR2 : (find_cutpoint gear (buf.take (Nat.min buf.length cfg.max_size)) cfg).2 =
        Nat.min buf.length cfg.max_size := by
      have hle := inner_cut_le gear (buf.take (Nat.min buf.length cfg.max_size)) 0 0 cfg
      rw [← find_cutpoint_def] at hle
      rw [take_length_of_le (nat_min_le_left _ _),
        nat_min_eq_left (nat_min_le_right _ _)] at hle
      omega
    have hfull : find_cutpoint gear (buf.take (Nat.min buf.length cfg.max_size)) cfg =
        ((find_cutpoint gear (buf.take (Nat.min buf.length cfg.max_size)) cfg).1,
          Nat.min buf.length cfg.max_size) := Prod.ext rfl hR2
    have hcpnew := checkpoint_set gear cfg buf
      (find_cutpoint gear (buf.take (Nat.min buf.length cfg.max_size)) cfg).1
      hminb hmaxlt hfull
    have h := streamRun_eq gear cfg hmin2 hminmax f buf p pr
      (Nat.max (Nat.min buf.length cfg.max_size / 2 * 2) cfg.min_size)
      (find_cutpoint gear (buf.take (Nat.min buf.length cfg.max_size)) cfg).1
      false ascr haef (fun hx => Bool.noConfusion hx) (by omega) hcpnew
      (show 2 * buf.length + 3 * p.length + 3 * ascr.length + 1 + 1 ≤ f by omega)
    rw [h]

theorem C9_witness : cfgW.Valid ∧
    ErrorFree [ReadStep.deliver 3] ∧
    ([7] : List Nat).length < cfgW.max_size ∧
    2 * ([7] : List Nat).length + 3 * ([8] : List Nat).length +
      3 * ([ReadStep.deliver 3] : List ReadStep).length + 3 ≤ 20 ∧
    ErrorFree ([] : List ReadStep) ∧
    ([1, 2] : List Nat) ≠ [] ∧
    (1 : Nat) ≤ 1 ∧
    1 < cfgW.max_size ∧
    AErrorFree [AsyncStep.deliver 3] ∧
    ([7] : List Nat).length < cfgW.min_size ∧
    2 * ([7] : List Nat).length + 3 * ([8] : List Nat).length +
      3 * ([AsyncStep.deliver 3] : List AsyncStep).length + 3 ≤ 20 ∧
    AErrorFree ([] : List AsyncStep) ∧
    cfgW.min_size ≤ (List.replicate 64 0 : List Nat).length ∧
    (List.replicate 64 0 : List Nat).length < cfgW.max_size ∧
    (((0 : Nat) = 0 ∧ (0 : Nat) = 0) ∨ ∃ Lp, cfgW.min_size ≤ Lp ∧
      Lp ≤ (List.replicate 64 0 : List Nat).length ∧ Lp < cfgW.max_size ∧
      find_cutpoint gearW ((List.replicate 64 0 : List Nat).take Lp) cfgW = (0, Lp) ∧
      (0 : Nat) = Nat.max (Lp / 2 * 2) cfgW.min_size) ∧
    ¬ (find_cutpoint_inner gearW ((List.replicate 64 0 : List Nat).take
        (Nat.min (List.replicate 64 0 : List Nat).length cfgW.max_size)) 0 0 cfgW).2 <
      Nat.min (List.replicate 64 0 : List Nat).length cfgW.max_size ∧
    2 * (List.replicate 64 0 : List Nat).length + 3 * ([] : List Nat).length +
      3 * ([] : List AsyncStep).length + 3 ≤ 200 ∧
    (iterRun gearW cfgW 20 ⟨[7], 5, false⟩
        ⟨[8], [ReadStep.failRead, ReadStep.deliver 3]⟩ =
      Except.error () :: (chunkAllGo gearW cfgW
        (([7] : List Nat).length + ([8] : List Nat).length) ([7] ++ [8]) 5).map
          Except.ok) ∧
    (iterEmit gearW cfgW [1, 2] [ReadStep.deliver 1, ReadStep.failRead] =
      Except.error () :: (chunkAll gearW cfgW [1, 2]).map Except.ok) ∧
    (streamRun gearW cfgW 20
        ⟨[7], 5, false, 0, 0, [8], [AsyncStep.failRead, AsyncStep.deliver 3]⟩ =
      Except.error () :: (chunkAllGo gearW cfgW
        (([7] : List Nat).length + ([8] : List Nat).length) ([7] ++ [8]) 5).map
          Except.ok) ∧
    (streamRun gearW cfgW 200
        ⟨List.replicate 64 0, 0, false, 0, 0, [], [AsyncStep.failRead]⟩ =
      Except.error () :: (chunkAllGo gearW cfgW
        ((List.replicate 64 0 : List Nat).length + ([] : List Nat).length)
        (List.replicate 64 0 ++ []) 0).map Except.ok) :=
  ⟨by decide, by decide, by decide, by decide, by decide, by decide, by decide,
    by decide, by decide, by decide, by decide, by decide, by decide, by decide,
    Or.inl ⟨rfl, rfl⟩, by decide, by decide,
    (C9_read_error_recovery gearW cfgW (by decide)).1 20 [7] [8] 5
      [ReadStep.deliver 3] (by decide) (by decide) (by decide),
    (C9_read_error_recovery gearW cfgW (by decide)).2.1 [1, 2] 1 []
      (by decide) (by decide) (by decide) (by decide),
    (C9_read_error_recovery gearW cfgW (by decide)).2.2.1 20 [7] [8] 5
      [AsyncStep.deliver 3] (by decide) (by decide) (by decide),
    (C9_read_error_recovery gearW cfgW (by decide)).2.2.2 200
      (List.replicate 64 0) [] 0 0 0 [] (by decide) (by decide) (by decide)
      (Or.inl ⟨rfl, rfl⟩) (by decide) (by decide)⟩

/-- C10: in both drivers the internal buffer never exceeds max_size bytes:
starting from a buffer within the cap, the blocking refill loop and one
stream poll both leave at most max_size bytes buffered. -/
theorem C10_buffer_capped (gear : Nat → Nat) (cfg : Config) (fuel : Nat)
    (buf : List Nat) (eof : Bool) (rdr : Reader) (st : StreamState)
    (hb1 : buf.length ≤ cfg.max_size) (hb2 : st.buf.length ≤ cfg.max_size) :
    (refill cfg fuel buf eof rdr).2.1.length ≤ cfg.max_size ∧
    (pollBody gear cfg st).2.buf.length ≤ cfg.max_size :=
  ⟨refill_len_le cfg fuel buf eof rdr hb1, pollBody_len_le gear cfg st hb2⟩

theorem C10_witness :
    ([1, 2] : List Nat).length ≤ cfgW.max_size ∧
    (⟨[3], 0, false, 0, 0, [4, 5], []⟩ : StreamState).buf.length ≤ cfgW.max_size ∧
    ((refill cfgW 3 [1, 2] false ⟨[9], []⟩).2.1.length ≤ cfgW.max_size ∧
    (pollBody gearW cfgW ⟨[3], 0, false, 0, 0, [4, 5], []⟩).2.buf.length ≤
      cfgW.max_size) :=
  ⟨by decide, by decide,
    C10_buffer_capped gearW cfgW 3 [1, 2] false ⟨[9], []⟩
      ⟨[3], 0, false, 0, 0, [4, 5], []⟩ (by decide) (by decide)⟩
